import Mathlib

/-! BaronyRanking: the ladder engine of `src/server.js` over the schema of `src/db.js`.

The database is a record of row lists, one list per table, in rowid order.  Every
prepared statement the handlers run is a function on that record; a handler's
`db.transaction(() => ...)()` is a computation in `Except TxError Db`, and the
handler keeps the old database when the computation throws (rollback).

Ranks and season ids are `Int` (the columns are `INTEGER`, and a season id comes
from the request); player ids are `Nat` (they only ever come from the
`AUTOINCREMENT` key of `players`).
-/

namespace BaronyRanking

/-! ## Tables (`src/db.js`) -/

/-- Row of `players` : `id`, `name TEXT NOT NULL UNIQUE`, `is_active DEFAULT 1`. -/
structure PlayerRow where
  id : Nat
  name : String
  is_active : Int
deriving DecidableEq, Repr

/-- Row of `seasons` : `id`, `year INTEGER NOT NULL UNIQUE`. -/
structure SeasonRow where
  id : Int
  year : Int
deriving DecidableEq, Repr

/-- Row of `season_rankings` : `season_id`, `rank`, `player_id` (the surrogate `id`
is the position in the list). -/
structure RankingRow where
  season_id : Int
  rank : Int
  player_id : Nat
deriving DecidableEq, Repr

/-- Row of `matches` (the surrogate `id` is the position in the list). -/
structure MatchRow where
  season_id : Int
  played_at : String
  winner_id : Nat
  loser_id : Nat
  score : Option String
  note : Option String
  processed : Int
deriving DecidableEq, Repr

/-- The four tables the ladder engine reads and writes (`matches_` is the table
`matches`, a reserved word here). -/
structure Db where
  players : List PlayerRow
  seasons : List SeasonRow
  season_rankings : List RankingRow
  matches_ : List MatchRow
deriving DecidableEq, Repr

/-- What can be thrown inside a transaction: a constraint error of a statement, a
`TypeError` on reading a property of `undefined`, or the `Error` the placement handler
throws itself. -/
inductive TxError where
  | uniqueViolation
  | foreignKeyViolation
  | typeError
  | failedUpsert
deriving DecidableEq, Repr

deriving instance DecidableEq for Except

/-- What a handler sends back: a JSON body, or an error status. -/
inductive Reply (α : Type) where
  | json (body : α)
  | error (status : Nat)
deriving DecidableEq, Repr

/-! ## JavaScript helpers -/

/-- The code points `String.prototype.trim` strips (WhiteSpace and LineTerminator). -/
def isJsWhiteSpace (c : Char) : Bool :=
  let n := c.toNat
  n = 0x09 || n = 0x0A || n = 0x0B || n = 0x0C || n = 0x0D || n = 0x20 || n = 0xA0
    || n = 0x1680 || (0x2000 ≤ n && n ≤ 0x200A) || n = 0x2028 || n = 0x2029
    || n = 0x202F || n = 0x205F || n = 0x3000 || n = 0xFEFF

/-- Method `s.trim()`. -/
def jsTrim (s : String) : String :=
  String.mk ((s.data.dropWhile isJsWhiteSpace).reverse.dropWhile isJsWhiteSpace).reverse

/-- Expression `String(x || "").trim()` for an optional string field of the body. -/
def trimField (x : Option String) : String :=
  jsTrim (x.getD "")

/-- Expression `x || null` for an optional string field: the empty string is falsy. -/
def orNull (x : Option String) : Option String :=
  x.filter (fun s => s ≠ "")

/-! ## Statements -/

/-- The key an `AUTOINCREMENT` column gives the next row (rows are never deleted). -/
def nextNat (ids : List Nat) : Nat :=
  ids.foldl max 0 + 1

/-- The key `seasons.id` gives the next row. -/
def nextInt (ids : List Int) : Int :=
  ids.foldl max 0 + 1

/-- Statement `INSERT INTO players(name) VALUES(?) ON CONFLICT(name) DO NOTHING`. -/
def upsertPlayer (db : Db) (name : String) : Db :=
  if db.players.any (fun p => p.name = name) then db
  else { db with players := db.players ++ [⟨nextNat (db.players.map (·.id)), name, 1⟩] }

/-- Statement `SELECT id FROM players WHERE name = ?` (`.get`: first row or undefined). -/
def getId (db : Db) (name : String) : Option Nat :=
  (db.players.find? (fun p => p.name = name)).map (·.id)

/-- Statement `SELECT 1 FROM season_rankings WHERE season_id = ? AND player_id = ?`. -/
def hasEntry (db : Db) (seasonId : Int) (pid : Nat) : Bool :=
  db.season_rankings.any (fun r => r.season_id = seasonId ∧ r.player_id = pid)

/-- Statement `SELECT rank FROM season_rankings WHERE season_id = ? AND player_id = ?`. -/
def rankOf (db : Db) (seasonId : Int) (pid : Nat) : Option Int :=
  (db.season_rankings.find? (fun r => r.season_id = seasonId ∧ r.player_id = pid)).map (·.rank)

/-- The rows of one season, in rowid order. -/
def seasonRows (db : Db) (seasonId : Int) : List RankingRow :=
  db.season_rankings.filter (fun r => r.season_id = seasonId)

/-- Statement `SELECT COALESCE(MAX(rank), 0) AS mx FROM season_rankings WHERE season_id = ?`. -/
def maxRank (db : Db) (seasonId : Int) : Int :=
  match (seasonRows db seasonId).map (·.rank) with
  | [] => 0
  | r :: rs => rs.foldl max r

/-- Statement `INSERT INTO season_rankings(season_id, rank, player_id) VALUES (?,?,?)` under
`UNIQUE(season_id, player_id)` and the two foreign keys. -/
def insertRanking (db : Db) (seasonId rank : Int) (pid : Nat) : Except TxError Db :=
  if hasEntry db seasonId pid then .error .uniqueViolation
  else if db.seasons.any (fun s => s.id = seasonId) ∧ db.players.any (fun p => p.id = pid) then
    .ok { db with season_rankings := db.season_rankings ++ [⟨seasonId, rank, pid⟩] }
  else .error .foreignKeyViolation

/-- Statement `INSERT INTO matches(...) VALUES (?, ?, ?, ?, ?, ?, 1)` under its three foreign keys. -/
def insertMatch (db : Db) (m : MatchRow) : Except TxError Db :=
  if db.seasons.any (fun s => s.id = m.season_id) ∧ db.players.any (fun p => p.id = m.winner_id)
      ∧ db.players.any (fun p => p.id = m.loser_id) then
    .ok { db with matches_ := db.matches_ ++ [m] }
  else .error .foreignKeyViolation

/-- Statement `UPDATE season_rankings SET rank = ? WHERE season_id = ? AND player_id = ?`. -/
def setRankOfPlayer (db : Db) (newRank seasonId : Int) (pid : Nat) : Db :=
  { db with season_rankings := db.season_rankings.map (fun r =>
      if r.season_id = seasonId ∧ r.player_id = pid then { r with rank := newRank } else r) }

/-- Statement `UPDATE season_rankings SET rank = rank + 1 WHERE season_id = ? AND rank = ? AND player_id != ?`. -/
def shiftTied (db : Db) (seasonId rank : Int) (pid : Nat) : Db :=
  { db with season_rankings := db.season_rankings.map (fun r =>
      if r.season_id = seasonId ∧ r.rank = rank ∧ r.player_id ≠ pid then
        { r with rank := r.rank + 1 } else r) }

/-- Statement `UPDATE season_rankings SET rank = ? WHERE season_id = ? AND rank = ?`. -/
def setRankWhereRank (db : Db) (newRank seasonId oldRank : Int) : Db :=
  { db with season_rankings := db.season_rankings.map (fun r =>
      if r.season_id = seasonId ∧ r.rank = oldRank then { r with rank := newRank } else r) }

/-- Ordered insertion that keeps one copy of each value. -/
def insertDistinct (x : Int) : List Int → List Int
  | [] => [x]
  | y :: ys =>
    if x < y then x :: y :: ys
    else if x = y then y :: ys
    else y :: insertDistinct x ys

/-- Statement `SELECT DISTINCT rank FROM season_rankings WHERE season_id = ? ORDER BY rank ASC`. -/
def selectDistinctRanks (db : Db) (seasonId : Int) : List Int :=
  ((seasonRows db seasonId).map (·.rank)).foldr insertDistinct []

/-! ## Utilities of `server.js` -/

/-- The `Map` built by `rows.forEach((r, idx) => map.set(r.rank, idx + 1))`, as its
entries in insertion order (the keys are distinct). -/
def densifyMap (db : Db) (seasonId : Int) : List (Int × Int) :=
  (selectDistinctRanks db seasonId).enum.map (fun p => (p.2, (p.1 : Int) + 1))

/-- One turn of the loop of `densifyRanks`: `if (oldRank !== newRank) upd.run(...)`. -/
def densifyStep (seasonId : Int) (db : Db) (p : Int × Int) : Db :=
  if p.1 ≠ p.2 then setRankWhereRank db p.2 seasonId p.1 else db

/-- Function `densifyRanks(seasonId)`. -/
def densifyRanks (db : Db) (seasonId : Int) : Db :=
  (densifyMap db seasonId).foldl (densifyStep seasonId) db

/-- Function `ensureInLadder(seasonId, playerId)`. -/
def ensureInLadder (db : Db) (seasonId : Int) (pid : Nat) : Except TxError Db :=
  if hasEntry db seasonId pid then .ok db
  else
    let mx := maxRank db seasonId
    let insertAt := (if mx = 0 then 0 else mx) + 1
    insertRanking db seasonId insertAt pid

/-! ## `POST /matches` -/

/-- Body of `POST /matches`; `season_id` is `none` when `Number(season_id)` is `NaN`. -/
structure MatchBody where
  season_id : Option Int
  winner_name : Option String
  loser_name : Option String
  played_at : Option String
  score : Option String
  note : Option String
deriving DecidableEq, Repr

/-- Reading `.id` or `.rank` of a `.get` / `.find` result: `undefined` throws. -/
def orThrow {α : Type} : Option α → Except TxError α
  | some a => .ok a
  | none => .error .typeError

/-- The inline `ensure` of the handler. -/
def ensure (db : Db) (seasonId : Int) (pid : Nat) : Except TxError Db :=
  if ¬ hasEntry db seasonId pid then
    let mx := maxRank db seasonId
    insertRanking db seasonId (mx + 1) pid
  else .ok db

/-- The match record the handler appends. -/
def matchRecord (seasonId : Int) (playedAt : String) (winner_id loser_id : Nat)
    (score note : Option String) : MatchRow :=
  ⟨seasonId, playedAt, winner_id, loser_id, score, note, 1⟩

/-- The transaction up to and including the two `ensure` calls: the database then,
with `winner_id` and `loser_id`. -/
def matchAdmit (db : Db) (seasonId : Int) (wn ln playedAt : String)
    (score note : Option String) : Except TxError (Db × Nat × Nat) := do
  let db1 := [wn, ln].foldl upsertPlayer db
  let winner_id ← orThrow (getId db1 wn)
  let loser_id ← orThrow (getId db1 ln)
  let db2 ← insertMatch db1 (matchRecord seasonId playedAt winner_id loser_id score note)
  let db3 ← ensure db2 seasonId winner_id
  let db4 ← ensure db3 seasonId loser_id
  pure (db4, winner_id, loser_id)

/-- The read of `wRank` and `lRank`. -/
def matchRanks (db : Db) (seasonId : Int) (winner_id loser_id : Nat) :
    Except TxError (Int × Int) := do
  let rows := db.season_rankings.filter (fun r =>
    r.season_id = seasonId ∧ (r.player_id = winner_id ∨ r.player_id = loser_id))
  let wRank ← orThrow ((rows.find? (fun r => r.player_id = winner_id)).map (·.rank))
  let lRank ← orThrow ((rows.find? (fun r => r.player_id = loser_id)).map (·.rank))
  pure (wRank, lRank)

/-- The three-way rule on `wRank` and `lRank`. -/
def matchRule (db : Db) (seasonId : Int) (winner_id : Nat) (wRank lRank : Int) : Db :=
  if wRank < lRank then db
  else if wRank > lRank then
    let newWRank := max 1 (lRank - 1)
    setRankOfPlayer db newWRank seasonId winner_id
  else shiftTied db seasonId wRank winner_id

/-- The whole transaction of `POST /matches`. -/
def matchTx (db : Db) (seasonId : Int) (wn ln playedAt : String)
    (score note : Option String) : Except TxError Db := do
  let (db4, winner_id, loser_id) ← matchAdmit db seasonId wn ln playedAt score note
  let (wRank, lRank) ← matchRanks db4 seasonId winner_id loser_id
  pure (matchRule db4 seasonId winner_id wRank lRank)

/-- Handler of `POST /matches` (`reportMatch`); `now` is `new Date().toISOString()`.
A thrown transaction is rolled back and answered with status 400. -/
def reportMatch (db : Db) (body : MatchBody) (now : String) : Reply Unit × Db :=
  let wn := trimField body.winner_name
  let ln := trimField body.loser_name
  match body.season_id with
  | none => (.error 400, db)
  | some seasonId =>
    if seasonId = 0 ∨ wn = "" ∨ ln = "" then (.error 400, db)
    else
      match matchTx db seasonId wn ln ((orNull body.played_at).getD now)
          (orNull body.score) (orNull body.note) with
      | .ok db' => (.json (), db')
      | .error _ => (.error 400, db)

/-! ## `POST /admin/season/:seasonId/players` -/

/-- Body of the placement request; `rank` is `Number(rankRaw)` when that is finite
and `none` otherwise (omitted, or not a number). -/
structure PlaceBody where
  name : Option String
  rank : Option Int
deriving DecidableEq, Repr

/-- The variables the placement transaction assigns. -/
structure PlaceVars where
  existed : Bool
  existingRank : Option Int
  playerId : Option Nat
  finalRank : Option Int
deriving DecidableEq, Repr

/-- The JSON answer of the placement handler. -/
structure PlaceReply where
  season_id : Int
  player_id : Option Nat
  new_rank : Option Int
  existed : Bool
deriving DecidableEq, Repr

/-- The transaction of the placement handler. -/
def placeTx (db : Db) (seasonId : Int) (nameRaw : String) (rankRaw : Option Int) :
    Except TxError (Db × PlaceVars) := do
  let db1 := upsertPlayer db nameRaw
  let playerId ← match getId db1 nameRaw with
    | some id => Except.ok id
    | none => Except.error TxError.failedUpsert
  match rankOf db1 seasonId playerId with
  | some existingRank => pure (db1, ⟨true, some existingRank, some playerId, none⟩)
  | none =>
    let mx := maxRank db1 seasonId
    let insertRank :=
      match rankRaw with
      | some k => if k ≥ 1 then k else mx + 1
      | none => mx + 1
    let db2 ← insertRanking db1 seasonId insertRank playerId
    let finalRank ← orThrow (rankOf db2 seasonId playerId)
    pure (db2, ⟨false, none, some playerId, some finalRank⟩)

/-- Handler of `POST /admin/season/:seasonId/players` (`placePlayer`), behind
`requireAuth`; `seasonId` is `none` when `Number(req.params.seasonId)` is `NaN`.
A thrown transaction is rolled back and answered with status 500. -/
def placePlayer (db : Db) (seasonId : Option Int) (body : PlaceBody) : Reply PlaceReply × Db :=
  let nameRaw := trimField body.name
  let rankRaw := body.rank
  match seasonId with
  | none => (.error 400, db)
  | some sid =>
    if sid = 0 ∨ nameRaw = "" then (.error 400, db)
    else
      match placeTx db sid nameRaw rankRaw with
      | .ok (db', v) =>
        if v.existed then (.json ⟨sid, v.playerId, v.existingRank, true⟩, db')
        else (.json ⟨sid, v.playerId, v.finalRank, false⟩, db')
      | .error _ => (.error 500, db)

/-! ## `POST /init-season` -/

/-- One element of `entries`; `rank` is `Number(e?.rank)` when finite, else `none`. -/
structure SeedEntry where
  name : Option String
  rank : Option Int
deriving DecidableEq, Repr

/-- Body of `POST /init-season`; a field is `none` when it is absent or, for the two
lists, not an array. -/
structure InitBody where
  year : Option Int
  playersInOrder : Option (List String)
  entries : Option (List SeedEntry)
deriving DecidableEq, Repr

/-- One element of the local `ladder` array of the `playersInOrder` branch. -/
structure LadderSeed where
  player_id : Nat
  rank : Int
deriving DecidableEq, Repr

/-- Statement `INSERT INTO seasons(year) VALUES(?)` with `lastInsertRowid`. -/
def insertSeason (db : Db) (year : Int) : Except TxError (Db × Int) :=
  if db.seasons.any (fun s => s.year = year) then .error .uniqueViolation
  else
    let id := nextInt (db.seasons.map (·.id))
    .ok ({ db with seasons := db.seasons ++ [⟨id, year⟩] }, id)

/-- One turn of `for (const e of entries)`. -/
def seedEntry (seasonId : Int) (db : Db) (e : SeedEntry) : Except TxError Db :=
  let name := trimField e.name
  match e.rank with
  | none => .ok db
  | some rnk =>
    if name = "" ∨ rnk < 1 then .ok db
    else do
      let db1 := upsertPlayer db name
      let pid ← orThrow (getId db1 name)
      insertRanking db1 seasonId rnk pid

/-- One turn of `playersInOrder.forEach((raw, i) => ...)`. -/
def collectSeed (acc : Db × List LadderSeed) (p : Nat × String) :
    Except TxError (Db × List LadderSeed) :=
  let name := jsTrim p.2
  if name = "" then .ok acc
  else do
    let db1 := upsertPlayer acc.1 name
    let pid ← orThrow (getId db1 name)
    pure (db1, acc.2 ++ [⟨pid, (p.1 : Int) + 1⟩])

/-- The transaction of `POST /init-season`. -/
def initTx (db : Db) (year : Int) (playersInOrder : Option (List String))
    (entries : Option (List SeedEntry)) : Except TxError (Db × Int) := do
  let (db1, seasonId) ← insertSeason db year
  match entries with
  | some es =>
    let db2 ← es.foldlM (seedEntry seasonId) db1
    pure (db2, seasonId)
  | none =>
    let (db2, ladder) ← ((playersInOrder.getD []).enum).foldlM collectSeed (db1, [])
    let db3 ← ladder.foldlM (fun d row => insertRanking d seasonId row.rank row.player_id) db2
    pure (db3, seasonId)

/-- Handler of `POST /init-season` (`initSeason`): the answer carries `season_id`.
A thrown transaction is rolled back and answered with status 400. -/
def initSeason (db : Db) (body : InitBody) : Reply Int × Db :=
  match body.year with
  | none => (.error 400, db)
  | some year =>
    if year = 0 then (.error 400, db)
    else if body.playersInOrder.isNone ∧ body.entries.isNone then (.error 400, db)
    else
      match initTx db year body.playersInOrder body.entries with
      | .ok (db', seasonId) => (.json seasonId, db')
      | .error _ => (.error 400, db)

/-! ## Schema constraints -/

/-- The constraints `db.js` declares: primary keys, `UNIQUE` columns and foreign keys. -/
def SchemaOk (db : Db) : Prop :=
  (db.players.map (·.id)).Nodup ∧ (db.players.map (·.name)).Nodup
    ∧ (db.seasons.map (·.id)).Nodup ∧ (db.seasons.map (·.year)).Nodup
    ∧ (db.season_rankings.map (fun r => (r.season_id, r.player_id))).Nodup
    ∧ (∀ r ∈ db.season_rankings,
        (∃ s ∈ db.seasons, s.id = r.season_id) ∧ ∃ p ∈ db.players, p.id = r.player_id)
    ∧ (∀ m ∈ db.matches_, (∃ s ∈ db.seasons, s.id = m.season_id)
        ∧ (∃ p ∈ db.players, p.id = m.winner_id) ∧ ∃ p ∈ db.players, p.id = m.loser_id)

instance (db : Db) : Decidable (SchemaOk db) := by
  unfold SchemaOk; infer_instance

/-! ## Observations used in the statements -/

/-- The id that the player called `n` has once the upsert has run. -/
def idAfterUpsert (db : Db) (n : String) : Nat :=
  (getId db n).getD (nextNat (db.players.map (·.id)))

/-- The rank the player called `n` holds in a season, if the player exists and has an
entry there. -/
def rankOfName (db : Db) (seasonId : Int) (n : String) : Option Int :=
  (getId db n).bind (rankOf db seasonId)

/-- The pair `(wRank, lRank)` the transaction of `POST /matches` reads after its two
`ensure` calls. -/
def ranksRead (db : Db) (seasonId : Int) (wn ln playedAt : String)
    (score note : Option String) : Except TxError (Int × Int) := do
  let (db4, winner_id, loser_id) ← matchAdmit db seasonId wn ln playedAt score note
  matchRanks db4 seasonId winner_id loser_id

/-- Statement `INSERT INTO season_rankings ...` when it goes through: the row is appended. -/
def withRow (db : Db) (seasonId rank : Int) (pid : Nat) : Db :=
  { db with season_rankings := db.season_rankings ++ [⟨seasonId, rank, pid⟩] }

/-- The ranks of the rows of one season, in rowid order. -/
def seasonRanks (db : Db) (seasonId : Int) : List Int :=
  (seasonRows db seasonId).map (·.rank)

/-- Dense rank of `x` among `ranks`: one more than the number of distinct values of
`ranks` that are strictly smaller than `x`. -/
def denseRank (ranks : List Int) (x : Int) : Int :=
  1 + ((ranks.toFinset.filter (fun y => y < x)).card : Int)

/-- What a rank value `x` becomes when the updates `old -> new` of `ps` run one after
the other on it. -/
def substSeq (ps : List (Int × Int)) (x : Int) : Int :=
  ps.foldl (fun y p => if y = p.1 then p.2 else y) x

/-- The season `seasonId` with every rank replaced through `f`, other seasons untouched. -/
def mapSeasonRanks (db : Db) (seasonId : Int) (f : Int → Int) : List RankingRow :=
  db.season_rankings.map (fun r => if r.season_id = seasonId then { r with rank := f r.rank } else r)

/-- The number of rows `season_rankings` holds for one (season, player) pair. -/
def entryCount (db : Db) (seasonId : Int) (pid : Nat) : Nat :=
  (db.season_rankings.filter (fun r => r.season_id = seasonId ∧ r.player_id = pid)).length

/-- The join of `fetchLadder` (`season_rankings` with `players` on the player id) for one
season, as (name, rank) pairs in rowid order. -/
def seasonEntries (db : Db) (seasonId : Int) : List (String × Int) :=
  (seasonRows db seasonId).filterMap (fun r =>
    (db.players.find? (fun p => p.id = r.player_id)).map (fun p => (p.name, r.rank)))

/-- The (name, rank) pairs of `entries` that have a non-blank name and a rank of at
least 1, with the name trimmed, in the order given. -/
def validSeeds (es : List SeedEntry) : List (String × Int) :=
  es.filterMap (fun e =>
    match e.rank with
    | some k => if trimField e.name ≠ "" ∧ 1 ≤ k then some (trimField e.name, k) else none
    | none => none)

/-- The row the two-phase loop of the `playersInOrder` branch inserts for a ladder seed. -/
def seedRow (seasonId : Int) (row : LadderSeed) : RankingRow :=
  ⟨seasonId, row.rank, row.player_id⟩

/-- The non-blank names of a sequence, trimmed, each with its 1-based position in the
whole sequence; `i` is the 0-based position of the first element. -/
def positionSeedsFrom (i : Nat) (names : List String) : List (String × Int) :=
  (names.enumFrom i).filterMap (fun p =>
    if jsTrim p.2 = "" then none else some (jsTrim p.2, (p.1 : Int) + 1))

/-- The non-blank names of a sequence, trimmed, each with its 1-based position. -/
def positionSeeds (names : List String) : List (String × Int) :=
  positionSeedsFrom 0 names

/-- Player ids are distinct and every ranking row refers to a player: the part of the
schema constraints that player resolution relies on. -/
def PlayersOk (db : Db) : Prop :=
  (db.players.map (·.id)).Nodup
    ∧ ∀ r ∈ db.season_rankings, ∃ p ∈ db.players, p.id = r.player_id

/-- Every ranking row of the season has a rank of at least 1. -/
def RanksPositive (db : Db) (seasonId : Int) : Prop :=
  ∀ r ∈ db.season_rankings, r.season_id = seasonId → 1 ≤ r.rank

instance (db : Db) (seasonId : Int) : Decidable (RanksPositive db seasonId) := by
  unfold RanksPositive; infer_instance

/-- The season has at most one ranking row per player. -/
def UniqueEntries (db : Db) (seasonId : Int) : Prop :=
  ((seasonRows db seasonId).map (·.player_id)).Nodup

instance (db : Db) (seasonId : Int) : Decidable (UniqueEntries db seasonId) := by
  unfold UniqueEntries; infer_instance

/-- The database after a successful ensure step for a player: unchanged when the player
holds an entry in the season, else with the row (season, `max + 1`, player) appended. -/
def ensured (db : Db) (seasonId : Int) (pid : Nat) : Db :=
  if hasEntry db seasonId pid then db
  else withRow db seasonId (maxRank db seasonId + 1) pid

/-- The id `winner_id` of a report: the id of the winner name after the upserts. -/
def winnerId (db : Db) (wn : String) : Nat :=
  idAfterUpsert db wn

/-- The id `loser_id` of a report: the id of the loser name after the upserts. -/
def loserId (db : Db) (wn ln : String) : Nat :=
  idAfterUpsert (upsertPlayer db wn) ln

/-- The database of a report after the two upserts and the appended match record. -/
def logged (db : Db) (seasonId : Int) (wn ln playedAt : String) (score note : Option String) :
    Db :=
  { upsertPlayer (upsertPlayer db wn) ln with
    matches_ := (upsertPlayer (upsertPlayer db wn) ln).matches_
      ++ [matchRecord seasonId playedAt (winnerId db wn) (loserId db wn ln) score note] }

/-- The database of a report after the two ensure steps, winner first. -/
def admitted (db : Db) (seasonId : Int) (wn ln playedAt : String) (score note : Option String) :
    Db :=
  ensured (ensured (logged db seasonId wn ln playedAt score note) seasonId (winnerId db wn))
    seasonId (loserId db wn ln)

/-- The ranking rows of `d` are those of `base` followed by rows of rank at least 1:
every row written since `base` has a positive rank, and no row of `base` was touched. -/
def WrittenPositive (base d : Db) : Prop :=
  ∃ new, d.season_rankings = base.season_rankings ++ new ∧ ∀ r ∈ new, 1 ≤ r.rank

/-! ## Sample data -/

/-- A season with a tie at rank 2 above ranks 3 and 7, and a second season. -/
def ladderDb : Db :=
  ⟨[⟨1, "Aki", 1⟩, ⟨2, "Ben", 1⟩, ⟨3, "Chie", 1⟩, ⟨4, "Dai", 1⟩],
   [⟨1, 2024⟩, ⟨2, 2025⟩],
   [⟨1, 2, 1⟩, ⟨1, 3, 2⟩, ⟨1, 7, 3⟩, ⟨1, 2, 4⟩, ⟨2, 1, 2⟩, ⟨2, 5, 3⟩],
   []⟩

/-- A report for season `seasonId` that names a winner and a loser. -/
def reportOf (seasonId : Int) (winner loser : String) : MatchBody :=
  ⟨some seasonId, some winner, some loser, none, none, none⟩


/-! ## Lemmas on the statements -/

theorem getId_some_any {db : Db} {n : String} {i : Nat} (h : getId db n = some i) :
    db.players.any (fun p => p.name = n) = true := by
  unfold getId at h
  cases hf : db.players.find? (fun p => p.name = n) with
  | none => rw [hf] at h; cases h
  | some p =>
    have h1 := List.find?_some hf
    have h2 := List.mem_of_find?_eq_some hf
    simp only [List.any_eq_true]
    exact ⟨p, h2, h1⟩

theorem upsertPlayer_of_getId {db : Db} {n : String} {i : Nat} (h : getId db n = some i) :
    upsertPlayer db n = db := by
  unfold upsertPlayer
  rw [getId_some_any h]; rfl

theorem find?_pair_filter (l : List RankingRow) (s : Int) (w l' p : Nat) (hp : p = w ∨ p = l') :
    (l.filter (fun r => r.season_id = s ∧ (r.player_id = w ∨ r.player_id = l'))).find?
        (fun r => r.player_id = p)
      = l.find? (fun r => r.season_id = s ∧ r.player_id = p) := by
  induction l with
  | nil => rfl
  | cons a t ih =>
    by_cases h1 : a.season_id = s ∧ a.player_id = p
    · have h3 : a.season_id = s ∧ (a.player_id = w ∨ a.player_id = l') := by
        refine ⟨h1.1, ?_⟩
        rcases hp with hp | hp
        · left; rw [h1.2, hp]
        · right; rw [h1.2, hp]
      rw [List.filter_cons, if_pos (decide_eq_true h3), List.find?_cons, List.find?_cons,
        decide_eq_true h1.2, decide_eq_true h1]
    · by_cases h3 : a.season_id = s ∧ (a.player_id = w ∨ a.player_id = l')
      · have h2 : ¬ a.player_id = p := fun h => h1 ⟨h3.1, h⟩
        rw [List.filter_cons, if_pos (decide_eq_true h3), List.find?_cons, List.find?_cons,
          decide_eq_false h2, decide_eq_false h1]
        exact ih
      · rw [List.filter_cons, if_neg (by rw [decide_eq_false h3]; exact Bool.false_ne_true),
          List.find?_cons, decide_eq_false h1]
        exact ih

theorem matchRanks_of_rankOf (db : Db) {s : Int} {w l : Nat} {a b : Int}
    (hw : rankOf db s w = some a) (hl : rankOf db s l = some b) :
    matchRanks db s w l = .ok (a, b) := by
  unfold matchRanks
  unfold rankOf at hw hl
  dsimp only
  rw [find?_pair_filter _ s w l w (Or.inl rfl), find?_pair_filter _ s w l l (Or.inr rfl), hw, hl]
  rfl

theorem foldl_max_ge (l : List Nat) (a : Nat) :
    a ≤ l.foldl max a ∧ ∀ i ∈ l, i ≤ l.foldl max a := by
  induction l generalizing a with
  | nil => simp
  | cons x t ih =>
    have h := ih (max a x)
    rw [List.foldl_cons]
    refine ⟨le_trans (le_max_left a x) h.1, ?_⟩
    intro i hi
    rcases List.mem_cons.mp hi with hi | hi
    · rw [hi]; exact le_trans (le_max_right a x) h.1
    · exact h.2 i hi

theorem lt_nextNat {ids : List Nat} {i : Nat} (h : i ∈ ids) : i < nextNat ids :=
  Nat.lt_succ_of_le ((foldl_max_ge ids 0).2 i h)

theorem getId_eq_none_iff (db : Db) (n : String) :
    getId db n = none ↔ db.players.any (fun p => p.name = n) = false := by
  unfold getId
  rw [Option.map_eq_none', List.find?_eq_none, List.any_eq_false]

theorem getId_some_mem {db : Db} {n : String} {i : Nat} (h : getId db n = some i) :
    ∃ p ∈ db.players, p.name = n ∧ p.id = i := by
  unfold getId at h
  cases hf : db.players.find? (fun p => p.name = n) with
  | none => rw [hf] at h; cases h
  | some p =>
    rw [hf] at h
    have h1 := List.find?_some hf
    exact ⟨p, List.mem_of_find?_eq_some hf, of_decide_eq_true h1, Option.some.inj h⟩

theorem upsertPlayer_tables (db : Db) (n : String) :
    (upsertPlayer db n).season_rankings = db.season_rankings
      ∧ (upsertPlayer db n).seasons = db.seasons
      ∧ (upsertPlayer db n).matches_ = db.matches_ := by
  unfold upsertPlayer
  split <;> exact ⟨rfl, rfl, rfl⟩

theorem upsertPlayer_players (db : Db) (n : String) :
    (upsertPlayer db n).players
      = if getId db n = none then
          db.players ++ [⟨nextNat (db.players.map (·.id)), n, 1⟩]
        else db.players := by
  unfold upsertPlayer
  by_cases h : db.players.any (fun p => p.name = n) = true
  · rw [if_pos h, if_neg]
    rw [getId_eq_none_iff, h]; exact Bool.noConfusion
  · rw [if_neg h, if_pos]
    rw [getId_eq_none_iff]; exact Bool.eq_false_iff.mpr h

theorem getId_upsert_self (db : Db) (n : String) :
    getId (upsertPlayer db n) n = some (idAfterUpsert db n) := by
  unfold idAfterUpsert
  cases h : getId db n with
  | some i => rw [upsertPlayer_of_getId h, h]; rfl
  | none =>
    have hp := upsertPlayer_players db n
    rw [if_pos h] at hp
    unfold getId at h ⊢
    rw [hp, List.find?_append]
    rw [Option.map_eq_none'] at h
    rw [h]
    simp only [Option.or, List.find?_cons, decide_True, Option.map_some', Option.getD_none]

theorem getId_upsert_of_some {db : Db} {m : String} {i : Nat} (n : String)
    (h : getId db m = some i) : getId (upsertPlayer db n) m = some i := by
  have hp := upsertPlayer_players db n
  by_cases hn : getId db n = none
  · rw [if_pos hn] at hp
    unfold getId at h ⊢
    rw [hp, List.find?_append]
    cases hf : db.players.find? (fun p => p.name = m) with
    | none => rw [hf] at h; cases h
    | some x => rw [hf] at h; exact h
  · rw [if_neg hn] at hp
    unfold getId at h ⊢
    rw [hp]; exact h

theorem getId_upsert_of_ne (db : Db) {m n : String} (h : m ≠ n) :
    getId (upsertPlayer db n) m = getId db m := by
  have hp := upsertPlayer_players db n
  by_cases hn : getId db n = none
  · rw [if_pos hn] at hp
    unfold getId
    rw [hp, List.find?_append]
    have : List.find? (fun p : PlayerRow => decide (p.name = m))
        [⟨nextNat (db.players.map (·.id)), n, 1⟩] = none := by
      rw [List.find?_cons, decide_eq_false (fun hh => h hh.symm)]; rfl
    rw [this, Option.or_none]
  · rw [if_neg hn] at hp
    unfold getId
    rw [hp]

theorem mem_players_upsert {db : Db} {p : PlayerRow} (n : String) (h : p ∈ db.players) :
    p ∈ (upsertPlayer db n).players := by
  rw [upsertPlayer_players]
  split
  · exact List.mem_append_left _ h
  · exact h

theorem ids_nodup_upsert {db : Db} (n : String) (h : (db.players.map (·.id)).Nodup) :
    ((upsertPlayer db n).players.map (·.id)).Nodup := by
  rw [upsertPlayer_players]
  split
  · rw [List.map_append, List.nodup_append]
    refine ⟨h, List.nodup_singleton _, ?_⟩
    intro a ha hb
    rw [List.map_cons, List.map_nil, List.mem_singleton] at hb
    have h1 := lt_nextNat ha
    have h2 : a = nextNat (db.players.map (·.id)) := hb
    omega
  · exact h

/-- Under a primary key on `id`, two names that resolve to one id are one name. -/
theorem getId_inj {db : Db} {m n : String} {i : Nat} (hk : (db.players.map (·.id)).Nodup)
    (hm : getId db m = some i) (hn : getId db n = some i) : m = n := by
  obtain ⟨p, hp, hpn, hpi⟩ := getId_some_mem hm
  obtain ⟨q, hq, hqn, hqi⟩ := getId_some_mem hn
  have : p = q := List.inj_on_of_nodup_map hk hp hq (hpi.trans hqi.symm)
  rw [← hpn, ← hqn, this]

theorem rankOf_eq_none_iff (db : Db) (s : Int) (p : Nat) :
    rankOf db s p = none ↔ hasEntry db s p = false := by
  unfold rankOf hasEntry
  rw [Option.map_eq_none', List.find?_eq_none, List.any_eq_false]

theorem hasEntry_fresh {db : Db} (s : Int)
    (hfk : ∀ r ∈ db.season_rankings, ∃ p ∈ db.players, p.id = r.player_id) :
    hasEntry db s (nextNat (db.players.map (·.id))) = false := by
  unfold hasEntry
  rw [List.any_eq_false]
  intro r hr hh
  have h1 : r.season_id = s ∧ r.player_id = nextNat (db.players.map (·.id)) :=
    of_decide_eq_true hh
  obtain ⟨q, hq, hqi⟩ := hfk r hr
  have h2 : q.id < nextNat (db.players.map (·.id)) :=
    lt_nextNat (List.mem_map_of_mem (·.id) hq)
  have h3 : q.id = nextNat (db.players.map (·.id)) := hqi.trans h1.2
  omega

theorem hasEntry_idAfterUpsert {db : Db} {s : Int} {n : String}
    (hfk : ∀ r ∈ db.season_rankings, ∃ p ∈ db.players, p.id = r.player_id)
    (h : rankOfName db s n = none) : hasEntry db s (idAfterUpsert db n) = false := by
  unfold rankOfName at h
  unfold idAfterUpsert
  cases hg : getId db n with
  | none => exact hasEntry_fresh s hfk
  | some i =>
    rw [hg] at h
    exact (rankOf_eq_none_iff db s i).mp h

theorem insertRanking_ok {db : Db} {s k : Int} {p : Nat}
    (he : hasEntry db s p = false) (hs : ∃ x ∈ db.seasons, x.id = s)
    (hp : ∃ q ∈ db.players, q.id = p) :
    insertRanking db s k p = .ok (withRow db s k p) := by
  have h1 : db.seasons.any (fun x => x.id = s) = true := by
    rw [List.any_eq_true]
    obtain ⟨x, hx, hxs⟩ := hs
    exact ⟨x, hx, decide_eq_true hxs⟩
  have h2 : db.players.any (fun q => q.id = p) = true := by
    rw [List.any_eq_true]
    obtain ⟨q, hq, hqs⟩ := hp
    exact ⟨q, hq, decide_eq_true hqs⟩
  unfold insertRanking
  rw [he, h1, h2]
  rfl

theorem hasEntry_withRow (db : Db) (s s' k : Int) (p p' : Nat) :
    hasEntry (withRow db s k p) s' p' = (hasEntry db s' p' || decide (s = s' ∧ p = p')) := by
  unfold hasEntry withRow
  dsimp only
  rw [List.any_append, List.any_cons, List.any_nil, Bool.or_false]

theorem rankOf_withRow (db : Db) (s s' k : Int) (p p' : Nat) :
    rankOf (withRow db s k p) s' p'
      = (rankOf db s' p').or (if s = s' ∧ p = p' then some k else none) := by
  unfold rankOf withRow
  dsimp only
  rw [List.find?_append, List.find?_cons]
  by_cases h : s = s' ∧ p = p'
  · rw [decide_eq_true h, if_pos h]
    cases db.season_rankings.find? (fun r => r.season_id = s' ∧ r.player_id = p') <;> rfl
  · rw [decide_eq_false h, if_neg h]
    cases db.season_rankings.find? (fun r => r.season_id = s' ∧ r.player_id = p') <;> rfl

/-- The ensure step on a player without an entry appends that player at `max + 1`. -/
theorem ensure_absent (db : Db) {s : Int} {p : Nat}
    (he : hasEntry db s p = false) (hs : ∃ x ∈ db.seasons, x.id = s)
    (hp : ∃ q ∈ db.players, q.id = p) :
    ensure db s p = .ok (withRow db s (maxRank db s + 1) p) := by
  unfold ensure
  rw [he]
  simp only [Bool.false_eq_true, not_false_eq_true, if_true]
  exact insertRanking_ok he hs hp

theorem mem_insertDistinct (x y : Int) (l : List Int) :
    y ∈ insertDistinct x l ↔ y = x ∨ y ∈ l := by
  induction l with
  | nil => simp [insertDistinct]
  | cons a t ih =>
    unfold insertDistinct
    by_cases h1 : x < a
    · rw [if_pos h1]; simp
    · rw [if_neg h1]
      by_cases h2 : x = a
      · rw [if_pos h2, h2]; simp
      · rw [if_neg h2, List.mem_cons, ih, List.mem_cons]
        tauto

theorem pairwise_insertDistinct (x : Int) (l : List Int) (h : l.Pairwise (· < ·)) :
    (insertDistinct x l).Pairwise (· < ·) := by
  induction l with
  | nil => simp [insertDistinct]
  | cons a t ih =>
    have ha := (List.pairwise_cons.mp h).1
    have ht := (List.pairwise_cons.mp h).2
    unfold insertDistinct
    by_cases h1 : x < a
    · rw [if_pos h1]
      refine List.pairwise_cons.mpr ⟨?_, h⟩
      intro b hb
      rcases List.mem_cons.mp hb with hb | hb
      · rw [hb]; exact h1
      · exact lt_trans h1 (ha b hb)
    · rw [if_neg h1]
      by_cases h2 : x = a
      · rw [if_pos h2]; exact h
      · rw [if_neg h2]
        refine List.pairwise_cons.mpr ⟨?_, ih ht⟩
        intro b hb
        rcases (mem_insertDistinct x b t).mp hb with hb | hb
        · rw [hb]; omega
        · exact ha b hb

theorem mem_selectDistinctRanks (db : Db) (s x : Int) :
    x ∈ selectDistinctRanks db s ↔ x ∈ seasonRanks db s := by
  unfold selectDistinctRanks seasonRanks
  induction (seasonRows db s).map (·.rank) with
  | nil => simp
  | cons a t ih => rw [List.foldr_cons, mem_insertDistinct, ih, List.mem_cons]

theorem pairwise_selectDistinctRanks (db : Db) (s : Int) :
    (selectDistinctRanks db s).Pairwise (· < ·) := by
  unfold selectDistinctRanks
  induction (seasonRows db s).map (·.rank) with
  | nil => exact List.Pairwise.nil
  | cons a t ih => rw [List.foldr_cons]; exact pairwise_insertDistinct a _ ih

/-- The entries of the map over a suffix of the sorted ranks that starts at index `i`. -/
theorem planFrom_cons (i : Nat) (r : Int) (t : List Int) :
    ((r :: t).enumFrom i).map (fun p => (p.2, (p.1 : Int) + 1))
      = (r, (i : Int) + 1) :: (t.enumFrom (i + 1)).map (fun p => (p.2, (p.1 : Int) + 1)) := rfl

theorem substSeq_cons (p : Int × Int) (ps : List (Int × Int)) (x : Int) :
    substSeq (p :: ps) x = substSeq ps (if x = p.1 then p.2 else x) := rfl

/-- A value that is not an old rank of the plan is not rewritten. -/
theorem substSeq_of_not_mem (l : List Int) (i : Nat) (y : Int) (h : y ∉ l) :
    substSeq ((l.enumFrom i).map (fun p => (p.2, (p.1 : Int) + 1))) y = y := by
  induction l generalizing i with
  | nil => rfl
  | cons r t ih =>
    rw [planFrom_cons, substSeq_cons]
    have h1 : y ≠ r := fun hh => h (hh ▸ List.mem_cons_self _ _)
    have h2 : y ∉ t := fun hh => h (List.mem_cons_of_mem _ hh)
    rw [if_neg h1]
    exact ih (i + 1) h2

/-- The sequential updates send each old rank to its position in the sorted list: when
every remaining old rank is above the index it is given, no update hits a value that an
earlier update produced. -/
theorem substSeq_sorted (l : List Int) (i : Nat) (hp : l.Pairwise (· < ·))
    (hlow : ∀ y ∈ l, (i : Int) + 1 ≤ y) (x : Int) (hx : x ∈ l) :
    substSeq ((l.enumFrom i).map (fun p => (p.2, (p.1 : Int) + 1))) x
      = (i : Int) + 1 + ((l.filter (fun y => y < x)).length : Int) := by
  induction l generalizing i with
  | nil => cases hx
  | cons r t ih =>
    have hr := (List.pairwise_cons.mp hp).1
    have ht := (List.pairwise_cons.mp hp).2
    have hri : (i : Int) + 1 ≤ r := hlow r (List.mem_cons_self _ _)
    rw [planFrom_cons, substSeq_cons]
    rcases List.mem_cons.mp hx with hx | hx
    · -- the head: rewritten to `i + 1`, which no later update touches
      rw [if_pos hx]
      have hnot : ((i : Int) + 1) ∉ t := by
        intro hh
        have := hr _ hh
        omega
      rw [substSeq_of_not_mem t (i + 1) _ hnot]
      have hnone : (r :: t).filter (fun y => decide (y < x)) = [] := by
        rw [List.filter_eq_nil_iff]
        intro y hy
        rcases List.mem_cons.mp hy with hy | hy
        · rw [hy, hx]; simp
        · have := hr y hy
          rw [hx]; simp; omega
      rw [hnone]; simp
    · -- a later rank: untouched by the head, then by induction
      have hlt : r < x := hr x hx
      rw [if_neg (by omega)]
      rw [ih (i + 1) ht (fun y hy => by have := hr y hy; push_cast; omega) hx]
      rw [List.filter_cons, if_pos (decide_eq_true hlt), List.length_cons]
      push_cast
      omega

theorem densifyStep_rows (s : Int) (db : Db) (p : Int × Int) :
    (densifyStep s db p).season_rankings
      = mapSeasonRanks db s (fun x => if x = p.1 then p.2 else x) := by
  unfold densifyStep mapSeasonRanks
  by_cases h : p.1 ≠ p.2
  · rw [if_pos h]
    unfold setRankWhereRank
    dsimp only
    apply List.map_congr_left
    intro r _
    by_cases h1 : r.season_id = s
    · by_cases h2 : r.rank = p.1
      · rw [if_pos ⟨h1, h2⟩, if_pos h1, if_pos h2]
      · rw [if_neg (fun hh => h2 hh.2), if_pos h1, if_neg h2]
    · rw [if_neg (fun hh => h1 hh.1), if_neg h1]
  · rw [if_neg h]
    have h' : p.1 = p.2 := not_not.mp h
    conv_lhs => rw [← List.map_id db.season_rankings]
    apply List.map_congr_left
    intro r _
    by_cases h1 : r.season_id = s
    · rw [if_pos h1]
      dsimp only
      by_cases h2 : r.rank = p.1
      · rw [if_pos h2, ← h', ← h2]; rfl
      · rw [if_neg h2]; rfl
    · rw [if_neg h1]; rfl

theorem densifyStep_tables (s : Int) (db : Db) (p : Int × Int) :
    (densifyStep s db p).players = db.players ∧ (densifyStep s db p).seasons = db.seasons
      ∧ (densifyStep s db p).matches_ = db.matches_ := by
  unfold densifyStep
  split <;> exact ⟨rfl, rfl, rfl⟩

theorem foldl_densifyStep (s : Int) (ps : List (Int × Int)) (db : Db) :
    (ps.foldl (densifyStep s) db).season_rankings = mapSeasonRanks db s (substSeq ps)
      ∧ (ps.foldl (densifyStep s) db).players = db.players
      ∧ (ps.foldl (densifyStep s) db).seasons = db.seasons
      ∧ (ps.foldl (densifyStep s) db).matches_ = db.matches_ := by
  induction ps generalizing db with
  | nil =>
    refine ⟨?_, rfl, rfl, rfl⟩
    unfold mapSeasonRanks
    conv_lhs => rw [List.foldl_nil, ← List.map_id db.season_rankings]
    apply List.map_congr_left
    intro r _
    split <;> rfl
  | cons p t ih =>
    rw [List.foldl_cons]
    obtain ⟨h1, h2, h3, h4⟩ := ih (densifyStep s db p)
    have hT := densifyStep_tables s db p
    refine ⟨?_, h2.trans hT.1, h3.trans hT.2.1, h4.trans hT.2.2⟩
    rw [h1]
    unfold mapSeasonRanks
    rw [densifyStep_rows]
    unfold mapSeasonRanks
    rw [List.map_map]
    apply List.map_congr_left
    intro r _
    by_cases hs : r.season_id = s
    · simp only [Function.comp, hs, if_true, substSeq_cons]
    · simp only [Function.comp, hs, if_false]

theorem mem_seasonRanks {db : Db} {s : Int} {r : RankingRow} (hr : r ∈ db.season_rankings)
    (hs : r.season_id = s) : r.rank ∈ seasonRanks db s := by
  unfold seasonRanks seasonRows
  have h1 : r ∈ db.season_rankings.filter (fun r => r.season_id = s) :=
    List.mem_filter.mpr ⟨hr, decide_eq_true hs⟩
  exact List.mem_map_of_mem (·.rank) h1

theorem seasonRanks_pos {db : Db} {s : Int}
    (hpos : ∀ r ∈ db.season_rankings, r.season_id = s → 1 ≤ r.rank) :
    ∀ x ∈ seasonRanks db s, 1 ≤ x := by
  intro x hx
  unfold seasonRanks seasonRows at hx
  obtain ⟨r, hr, hrx⟩ := List.mem_map.mp hx
  have h1 := List.mem_filter.mp hr
  rw [← hrx]
  exact hpos r h1.1 (of_decide_eq_true h1.2)

/-- Counting in the sorted list of distinct ranks is counting distinct ranks. -/
theorem count_below_eq_card (db : Db) (s x : Int) :
    (((selectDistinctRanks db s).filter (fun y => y < x)).length : Int)
      = (((seasonRanks db s).toFinset.filter (fun y => y < x)).card : Int) := by
  have hnd : (selectDistinctRanks db s).Nodup :=
    (pairwise_selectDistinctRanks db s).imp (fun h => ne_of_lt h)
  have hset : (selectDistinctRanks db s).toFinset = (seasonRanks db s).toFinset := by
    ext y
    rw [List.mem_toFinset, List.mem_toFinset, mem_selectDistinctRanks]
  rw [← hset, ← List.toFinset_card_of_nodup (hnd.filter _), List.toFinset_filter]
  congr 2
  ext y
  simp

/-- The rows after `densifyRanks`: in the season every rank is replaced by its dense
rank, nothing else changes. -/
theorem densifyRanks_rows (db : Db) (s : Int)
    (hpos : ∀ r ∈ db.season_rankings, r.season_id = s → 1 ≤ r.rank) :
    (densifyRanks db s).season_rankings = mapSeasonRanks db s (denseRank (seasonRanks db s)) := by
  unfold densifyRanks
  rw [(foldl_densifyStep s _ db).1]
  unfold mapSeasonRanks
  apply List.map_congr_left
  intro r hr
  by_cases hs : r.season_id = s
  · rw [if_pos hs, if_pos hs]
    have hmem : r.rank ∈ selectDistinctRanks db s :=
      (mem_selectDistinctRanks db s r.rank).mpr (mem_seasonRanks hr hs)
    have hlow : ∀ y ∈ selectDistinctRanks db s, ((0 : Nat) : Int) + 1 ≤ y := by
      intro y hy
      have := seasonRanks_pos hpos y ((mem_selectDistinctRanks db s y).mp hy)
      push_cast; omega
    have h := substSeq_sorted (selectDistinctRanks db s) 0 (pairwise_selectDistinctRanks db s)
      hlow r.rank hmem
    have e : substSeq (densifyMap db s) r.rank = denseRank (seasonRanks db s) r.rank := by
      unfold densifyMap denseRank
      rw [List.enum, h, count_below_eq_card]
      push_cast; omega
    rw [e]
  · rw [if_neg hs, if_neg hs]

/-- The placement handler on a name whose player already holds an entry in the season. -/
theorem placePlayer_of_entry {db : Db} {sid : Int} (body : PlaceBody) {pid : Nat} {r : Int}
    (hs0 : sid ≠ 0) (hn : trimField body.name ≠ "")
    (hg : getId db (trimField body.name) = some pid) (hr : rankOf db sid pid = some r) :
    placePlayer db (some sid) body = (.json ⟨sid, some pid, some r, true⟩, db) := by
  unfold placePlayer
  dsimp only
  rw [if_neg (by simp [hs0, hn])]
  unfold placeTx
  dsimp only
  rw [upsertPlayer_of_getId hg, hg]
  simp only [orThrow, bind, Except.bind, hr, pure, Except.pure, if_true]

/-- Appending a row for a pair raises the count of that pair by one. -/
theorem entryCount_withRow (db : Db) (s k : Int) (p : Nat) :
    entryCount (withRow db s k p) s p = entryCount db s p + 1 := by
  unfold entryCount withRow
  dsimp only
  rw [List.filter_append, List.length_append, List.filter_cons, if_pos (decide_eq_true ⟨rfl, rfl⟩)]
  rfl

theorem entryCount_eq_zero {db : Db} {s : Int} {p : Nat} (h : hasEntry db s p = false) :
    entryCount db s p = 0 := by
  unfold entryCount
  unfold hasEntry at h
  rw [List.any_eq_false] at h
  rw [List.length_eq_zero, List.filter_eq_nil_iff]
  exact h

/-- The placement handler on a name without an entry in the season: the player is
resolved (created if new) and one row is appended. -/
theorem placePlayer_of_absent {db : Db} {sid : Int} (body : PlaceBody)
    (hfk : ∀ r ∈ db.season_rankings, ∃ p ∈ db.players, p.id = r.player_id)
    (hs0 : sid ≠ 0) (hseason : ∃ x ∈ db.seasons, x.id = sid)
    (hn : trimField body.name ≠ "")
    (hno : rankOfName db sid (trimField body.name) = none) :
    placePlayer db (some sid) body
      = (.json ⟨sid, some (idAfterUpsert db (trimField body.name)),
            some (match body.rank with
              | some k => if k ≥ 1 then k else maxRank db sid + 1
              | none => maxRank db sid + 1), false⟩,
          withRow (upsertPlayer db (trimField body.name)) sid
            (match body.rank with
              | some k => if k ≥ 1 then k else maxRank db sid + 1
              | none => maxRank db sid + 1)
            (idAfterUpsert db (trimField body.name))) := by
  have hT := upsertPlayer_tables db (trimField body.name)
  have hg := getId_upsert_self db (trimField body.name)
  have he : hasEntry db sid (idAfterUpsert db (trimField body.name)) = false :=
    hasEntry_idAfterUpsert hfk hno
  have he1 : hasEntry (upsertPlayer db (trimField body.name)) sid
      (idAfterUpsert db (trimField body.name)) = false := by
    unfold hasEntry at he ⊢; rw [hT.1]; exact he
  have hmx : maxRank (upsertPlayer db (trimField body.name)) sid = maxRank db sid := by
    unfold maxRank seasonRows; rw [hT.1]
  obtain ⟨q, hq, _, hqi⟩ := getId_some_mem hg
  have hI := fun k => insertRanking_ok (k := k) he1
    (by rw [hT.2.1]; exact hseason) ⟨q, hq, hqi⟩
  unfold placePlayer
  dsimp only
  rw [if_neg (by simp [hs0, hn])]
  unfold placeTx
  dsimp only
  rw [hg, hmx]
  simp only [orThrow, bind, Except.bind, (rankOf_eq_none_iff _ _ _).mpr he1, hI,
    rankOf_withRow, Option.or, and_self, if_true, pure, Except.pure, Bool.false_eq_true,
    if_false]

/-- C7 (idempotent guard). For a season id other than 0: (1) when the player called by the
trimmed, non-blank name already holds an entry in the season, the placement handler,
whatever `rank` the body carries, answers `existed = true` with that entry's rank and
leaves the database as it was; (2) in a database that meets the schema constraints, two
placements in a row of one name that had no entry in an existing season: the first
answers `existed = false` with the rank `R` it assigned, the second answers
`existed = true` with the same player and the same `R` and changes nothing, and the
player holds exactly one entry in the season. -/
theorem placePlayer_idempotent (db : Db) (sid : Int) (hs0 : sid ≠ 0) :
    (∀ (body : PlaceBody) (pid : Nat) (r : Int),
        trimField body.name ≠ "" → getId db (trimField body.name) = some pid →
        rankOf db sid pid = some r →
        placePlayer db (some sid) body = (.json ⟨sid, some pid, some r, true⟩, db))
      ∧ (∀ (first second : PlaceBody),
          SchemaOk db → (∃ x ∈ db.seasons, x.id = sid) →
          trimField first.name ≠ "" → trimField second.name = trimField first.name →
          rankOfName db sid (trimField first.name) = none →
          ∃ (pid : Nat) (R : Int),
            (placePlayer db (some sid) first).1 = .json ⟨sid, some pid, some R, false⟩
            ∧ placePlayer (placePlayer db (some sid) first).2 (some sid) second
                = (.json ⟨sid, some pid, some R, true⟩, (placePlayer db (some sid) first).2)
            ∧ entryCount (placePlayer db (some sid) first).2 sid pid = 1) := by
  refine ⟨fun body pid r hn hg hr => placePlayer_of_entry body hs0 hn hg hr, ?_⟩
  intro first second hok hseason hn hsame hno
  have hfk : ∀ r ∈ db.season_rankings, ∃ p ∈ db.players, p.id = r.player_id :=
    fun r hr => (hok.2.2.2.2.2.1 r hr).2
  have h1 := placePlayer_of_absent first hfk hs0 hseason hn hno
  have he : hasEntry db sid (idAfterUpsert db (trimField first.name)) = false :=
    hasEntry_idAfterUpsert hfk hno
  have hT := upsertPlayer_tables db (trimField first.name)
  have he1 : hasEntry (upsertPlayer db (trimField first.name)) sid
      (idAfterUpsert db (trimField first.name)) = false := by
    unfold hasEntry at he ⊢; rw [hT.1]; exact he
  rw [h1]
  generalize (match first.rank with
      | some k => if k ≥ 1 then k else maxRank db sid + 1
      | none => maxRank db sid + 1) = R
  refine ⟨idAfterUpsert db (trimField first.name), R, rfl, ?_, ?_⟩
  · apply placePlayer_of_entry second hs0 (by rw [hsame]; exact hn)
    · rw [hsame]
      exact getId_upsert_self db (trimField first.name)
    · show rankOf (withRow _ sid R _) sid _ = some R
      rw [rankOf_withRow, (rankOf_eq_none_iff _ _ _).mpr he1, if_pos ⟨rfl, rfl⟩]
      rfl
  · show entryCount (withRow _ sid R _) sid _ = 1
    rw [entryCount_withRow, entryCount_eq_zero he1]

/-- Witness of C7: Aki, who holds rank 2 in season 1 of `ladderDb`, is placed again with
rank 9; and the new name Fumi is placed twice in season 2. -/
theorem placePlayer_idempotent_witness :
    placePlayer ladderDb (some 1) ⟨some " Aki ", some 9⟩
        = (.json ⟨1, some 1, some 2, true⟩, ladderDb)
      ∧ ∃ (pid : Nat) (R : Int),
          (placePlayer ladderDb (some 2) ⟨some "Fumi", some 3⟩).1
              = .json ⟨2, some pid, some R, false⟩
          ∧ placePlayer (placePlayer ladderDb (some 2) ⟨some "Fumi", some 3⟩).2 (some 2)
                ⟨some "Fumi ", none⟩
              = (.json ⟨2, some pid, some R, true⟩,
                  (placePlayer ladderDb (some 2) ⟨some "Fumi", some 3⟩).2)
          ∧ entryCount (placePlayer ladderDb (some 2) ⟨some "Fumi", some 3⟩).2 2 pid = 1 :=
  ⟨(placePlayer_idempotent ladderDb 1 (by decide)).1 ⟨some " Aki ", some 9⟩ 1 2 (by decide)
      (by decide) (by decide),
    (placePlayer_idempotent ladderDb 2 (by decide)).2 ⟨some "Fumi", some 3⟩
      ⟨some "Fumi ", none⟩ (by decide) (by decide) (by decide) (by decide) (by decide)⟩

theorem playersOk_of_schemaOk {db : Db} (h : SchemaOk db) : PlayersOk db :=
  ⟨h.1, fun r hr => (h.2.2.2.2.2.1 r hr).2⟩

/-- Under a primary key on `id`, the lookup by id of a resolved name finds that name. -/
theorem find?_id_of_getId {db : Db} {n : String} {i : Nat}
    (hk : (db.players.map (·.id)).Nodup) (h : getId db n = some i) :
    (db.players.find? (fun p => p.id = i)).map (·.name) = some n := by
  obtain ⟨q, hq, hqn, hqi⟩ := getId_some_mem h
  cases hf : db.players.find? (fun p => p.id = i) with
  | none =>
    rw [List.find?_eq_none] at hf
    exact absurd (decide_eq_true hqi) (hf q hq)
  | some q' =>
    have h0 := List.find?_some hf
    have h1 : q'.id = i := of_decide_eq_true h0
    have h2 := List.mem_of_find?_eq_some hf
    have : q' = q := List.inj_on_of_nodup_map hk h2 hq (h1.trans hqi.symm)
    rw [Option.map_some', this, hqn]

/-- One resolved insertion: upsert the name, then insert a row for its id. -/
theorem seed_step {d : Db} {sid : Int} (n : String) (k : Int)
    (hok : PlayersOk d) (hseason : ∃ x ∈ d.seasons, x.id = sid)
    (hno : rankOfName d sid n = none) :
    insertRanking (upsertPlayer d n) sid k (idAfterUpsert d n)
        = .ok (withRow (upsertPlayer d n) sid k (idAfterUpsert d n))
      ∧ PlayersOk (withRow (upsertPlayer d n) sid k (idAfterUpsert d n))
      ∧ (∀ m i, getId d m = some i →
          getId (withRow (upsertPlayer d n) sid k (idAfterUpsert d n)) m = some i)
      ∧ getId (withRow (upsertPlayer d n) sid k (idAfterUpsert d n)) n
          = some (idAfterUpsert d n)
      ∧ (∀ m, m ≠ n → rankOfName d sid m = none →
          rankOfName (withRow (upsertPlayer d n) sid k (idAfterUpsert d n)) sid m = none) := by
  have hT := upsertPlayer_tables d n
  have hg := getId_upsert_self d n
  have he : hasEntry d sid (idAfterUpsert d n) = false := hasEntry_idAfterUpsert hok.2 hno
  have he1 : hasEntry (upsertPlayer d n) sid (idAfterUpsert d n) = false := by
    unfold hasEntry at he ⊢; rw [hT.1]; exact he
  obtain ⟨q, hq, _, hqi⟩ := getId_some_mem hg
  have hk1 := ids_nodup_upsert n hok.1
  refine ⟨insertRanking_ok he1 (by rw [hT.2.1]; exact hseason) ⟨q, hq, hqi⟩, ⟨hk1, ?_⟩,
    fun m i hm => getId_upsert_of_some n hm, hg, ?_⟩
  · intro r hr
    have hr' : r ∈ (upsertPlayer d n).season_rankings ++ [⟨sid, k, idAfterUpsert d n⟩] := hr
    rw [hT.1] at hr'
    rcases List.mem_append.mp hr' with hr' | hr'
    · obtain ⟨p, hp, hpi⟩ := hok.2 r hr'
      exact ⟨p, mem_players_upsert n hp, hpi⟩
    · rw [List.mem_singleton] at hr'
      rw [hr']
      exact ⟨q, hq, hqi⟩
  · intro m hm hnom
    unfold rankOfName at hnom ⊢
    have hgm : getId (withRow (upsertPlayer d n) sid k (idAfterUpsert d n)) m = getId d m :=
      getId_upsert_of_ne d hm
    rw [hgm]
    cases hj : getId d m with
    | none => rfl
    | some j =>
      rw [hj] at hnom
      have hnom' : rankOf d sid j = none := hnom
      have hj1 : getId (upsertPlayer d n) m = some j := getId_upsert_of_some n hj
      have hne : idAfterUpsert d n ≠ j := fun hh => hm (getId_inj hk1 hj1 (hh ▸ hg))
      show rankOf (withRow (upsertPlayer d n) sid k (idAfterUpsert d n)) sid j = none
      rw [rankOf_withRow, if_neg (fun hh => hne hh.2)]
      have : rankOf (upsertPlayer d n) sid j = none := by
        unfold rankOf at hnom' ⊢; rw [hT.1]; exact hnom'
      rw [this]; rfl

theorem validSeeds_cons (e : SeedEntry) (es : List SeedEntry) :
    validSeeds (e :: es)
      = match e.rank with
        | some k =>
          if trimField e.name ≠ "" ∧ 1 ≤ k then (trimField e.name, k) :: validSeeds es
          else validSeeds es
        | none => validSeeds es := by
  unfold validSeeds
  rw [List.filterMap_cons]
  cases e.rank with
  | none => rfl
  | some k =>
    by_cases h : trimField e.name ≠ "" ∧ 1 ≤ k
    · simp only [if_pos h]
    · simp only [if_neg h]

/-- The loop over `entries`: it goes through, resolves each valid name and appends one
row per valid pair, in order. -/
theorem seedEntry_loop (sid : Int) (es : List SeedEntry) (d : Db)
    (hok : PlayersOk d) (hseason : ∃ x ∈ d.seasons, x.id = sid)
    (hnd : ((validSeeds es).map (·.1)).Nodup)
    (hno : ∀ p ∈ validSeeds es, rankOfName d sid p.1 = none) :
    ∃ d', es.foldlM (seedEntry sid) d = .ok d'
      ∧ PlayersOk d' ∧ d'.seasons = d.seasons ∧ d'.matches_ = d.matches_
      ∧ (∀ m i, getId d m = some i → getId d' m = some i)
      ∧ (∀ p ∈ validSeeds es, ∃ i, getId d' p.1 = some i)
      ∧ d'.season_rankings = d.season_rankings
          ++ (validSeeds es).map (fun p => ⟨sid, p.2, (getId d' p.1).getD 0⟩) := by
  induction es generalizing d with
  | nil =>
    refine ⟨d, rfl, hok, rfl, rfl, fun _ _ h => h, ?_, ?_⟩
    · intro p hp; cases hp
    · show d.season_rankings = d.season_rankings ++ []
      rw [List.append_nil]
  | cons e rest ih =>
    rw [List.foldlM_cons]
    rw [validSeeds_cons] at hnd hno ⊢
    cases hr : e.rank with
    | none =>
      rw [hr] at hnd hno
      dsimp only at hnd hno ⊢
      have hstep : seedEntry sid d e = .ok d := by
        unfold seedEntry; rw [hr]
      rw [hstep]
      exact ih d hok hseason hnd hno
    | some k =>
      rw [hr] at hnd hno
      dsimp only at hnd hno ⊢
      by_cases hv : trimField e.name ≠ "" ∧ 1 ≤ k
      · rw [if_pos hv] at hnd hno
        simp only [if_pos hv]
        rw [List.map_cons, List.nodup_cons] at hnd
        have hno0 := hno _ (List.mem_cons_self _ _)
        obtain ⟨hI, hok2, hstab, hgn, hrest⟩ := seed_step (trimField e.name) k hok hseason hno0
        have hstep : seedEntry sid d e
            = .ok (withRow (upsertPlayer d (trimField e.name)) sid k
                (idAfterUpsert d (trimField e.name))) := by
          unfold seedEntry
          rw [hr]
          dsimp only
          rw [if_neg (by
            intro hh
            rcases hh with hh | hh
            · exact hv.1 hh
            · omega)]
          simp only [bind, Except.bind, getId_upsert_self, orThrow, hI]
        rw [hstep]
        have hseason2 : ∃ x ∈ (withRow (upsertPlayer d (trimField e.name)) sid k
            (idAfterUpsert d (trimField e.name))).seasons, x.id = sid := by
          show ∃ x ∈ (upsertPlayer d (trimField e.name)).seasons, x.id = sid
          rw [(upsertPlayer_tables d _).2.1]; exact hseason
        have hno2 : ∀ p ∈ validSeeds rest, rankOfName (withRow (upsertPlayer d (trimField e.name))
            sid k (idAfterUpsert d (trimField e.name))) sid p.1 = none := by
          intro p hp
          apply hrest p.1 _ (hno p (List.mem_cons_of_mem _ hp))
          intro hh
          exact hnd.1 (hh ▸ List.mem_map_of_mem (·.1) hp)
        obtain ⟨d', hrun, hok', hse', hma', hstab', hsome', hrows'⟩ :=
          ih _ hok2 hseason2 hnd.2 hno2
        have hgn' := hstab' _ _ hgn
        refine ⟨d', hrun, hok', ?_, ?_, fun m i hm => hstab' m i (hstab m i hm), ?_, ?_⟩
        · rw [hse']; exact (upsertPlayer_tables d _).2.1
        · rw [hma']; exact (upsertPlayer_tables d _).2.2
        · intro p hp
          rcases List.mem_cons.mp hp with hp | hp
          · rw [hp]; exact ⟨_, hgn'⟩
          · exact hsome' p hp
        · rw [hrows', List.map_cons, hgn']
          show ((upsertPlayer d (trimField e.name)).season_rankings ++ [_]) ++ _ = _
          rw [(upsertPlayer_tables d _).1, List.append_assoc]
          rfl
      · rw [if_neg hv] at hnd hno
        simp only [if_neg hv]
        have hstep : seedEntry sid d e = .ok d := by
          unfold seedEntry
          rw [hr]
          dsimp only
          rw [if_pos (by
            by_cases h1 : trimField e.name = ""
            · exact Or.inl h1
            · right
              have : ¬ 1 ≤ k := fun h2 => hv ⟨h1, h2⟩
              omega)]
        rw [hstep]
        exact ih d hok hseason hnd hno

theorem foldl_max_ge_int (l : List Int) (a : Int) :
    a ≤ l.foldl max a ∧ ∀ i ∈ l, i ≤ l.foldl max a := by
  induction l generalizing a with
  | nil => simp
  | cons x t ih =>
    have h := ih (max a x)
    rw [List.foldl_cons]
    refine ⟨le_trans (le_max_left a x) h.1, ?_⟩
    intro i hi
    rcases List.mem_cons.mp hi with hi | hi
    · rw [hi]; exact le_trans (le_max_right a x) h.1
    · exact h.2 i hi

theorem lt_nextInt {ids : List Int} {i : Int} (h : i ∈ ids) : i < nextInt ids := by
  have := (foldl_max_ge_int ids 0).2 i h
  unfold nextInt
  omega

/-- A season id that `seasons.id` is about to give has no ranking row yet. -/
theorem no_rows_of_next_season {db : Db} (hok : SchemaOk db) :
    ∀ r ∈ db.season_rankings, r.season_id ≠ nextInt (db.seasons.map (·.id)) := by
  intro r hr hh
  obtain ⟨x, hx, hxi⟩ := (hok.2.2.2.2.2.1 r hr).1
  have h1 : x.id < nextInt (db.seasons.map (·.id)) :=
    lt_nextInt (List.mem_map_of_mem (·.id) hx)
  omega

theorem insertSeason_new {db : Db} {year : Int} (hnew : ∀ x ∈ db.seasons, x.year ≠ year) :
    insertSeason db year
      = .ok ({ db with seasons := db.seasons ++ [⟨nextInt (db.seasons.map (·.id)), year⟩] },
          nextInt (db.seasons.map (·.id))) := by
  unfold insertSeason
  have h : db.seasons.any (fun s => s.year = year) = false := by
    rw [List.any_eq_false]
    intro x hx
    rw [decide_eq_true_eq]
    exact hnew x hx
  rw [h]
  rfl

/-- The rows of a season after rows of that season were appended to a table that had
none of it. -/
theorem seasonRows_of_append {d d0 : Db} {sid : Int} {new : List RankingRow}
    (hrows : d.season_rankings = d0.season_rankings ++ new)
    (hnone : ∀ r ∈ d0.season_rankings, r.season_id ≠ sid)
    (hnew : ∀ r ∈ new, r.season_id = sid) :
    seasonRows d sid = new
      ∧ ∀ s', s' ≠ sid → seasonRows d s' = seasonRows d0 s' := by
  unfold seasonRows
  rw [hrows]
  constructor
  · rw [List.filter_append]
    have h1 : d0.season_rankings.filter (fun r => decide (r.season_id = sid)) = [] := by
      rw [List.filter_eq_nil_iff]
      intro r hr
      rw [decide_eq_true_eq]
      exact hnone r hr
    have h2 : new.filter (fun r => decide (r.season_id = sid)) = new := by
      rw [List.filter_eq_self]
      intro r hr
      exact decide_eq_true (hnew r hr)
    rw [h1, h2, List.nil_append]
  · intro s' hs'
    rw [List.filter_append]
    have h2 : new.filter (fun r => decide (r.season_id = s')) = [] := by
      rw [List.filter_eq_nil_iff]
      intro r hr
      rw [decide_eq_true_eq, hnew r hr]
      exact fun hh => hs' hh.symm
    rw [h2, List.append_nil]

/-- The join of the appended rows gives back the seeds they were made from. -/
theorem filterMap_join_seeds {d : Db} (sid : Int) (seeds : List (String × Int))
    (hk : (d.players.map (·.id)).Nodup) (hsome : ∀ p ∈ seeds, ∃ i, getId d p.1 = some i) :
    (seeds.map (fun p => (⟨sid, p.2, (getId d p.1).getD 0⟩ : RankingRow))).filterMap (fun r =>
        (d.players.find? (fun q => q.id = r.player_id)).map (fun q => (q.name, r.rank)))
      = seeds := by
  induction seeds with
  | nil => rfl
  | cons p t ih =>
    obtain ⟨i, hi⟩ := hsome p (List.mem_cons_self _ _)
    have h1 := find?_id_of_getId hk hi
    have e : (getId d p.1).getD 0 = i := by rw [hi]; rfl
    rw [List.map_cons, List.filterMap_cons]
    cases hf : d.players.find? (fun q => q.id = i) with
    | none => rw [hf] at h1; cases h1
    | some q =>
      rw [hf] at h1
      have hq : q.name = p.1 := Option.some.inj h1
      simp only [e, hf, Option.map_some', hq]
      rw [ih (fun p' hp' => hsome p' (List.mem_cons_of_mem _ hp'))]

/-- A season that has just been created: nobody holds an entry in it. -/
theorem rankOfName_new_season {db : Db} (hok : SchemaOk db) (year : Int) (n : String) :
    rankOfName { db with seasons := db.seasons ++ [⟨nextInt (db.seasons.map (·.id)), year⟩] }
      (nextInt (db.seasons.map (·.id))) n = none := by
  unfold rankOfName
  cases getId { db with seasons := db.seasons ++ [⟨nextInt (db.seasons.map (·.id)), year⟩] } n with
  | none => rfl
  | some j =>
    show rankOf _ _ j = none
    rw [rankOf_eq_none_iff]
    unfold hasEntry
    rw [List.any_eq_false]
    intro r hr
    rw [decide_eq_true_eq]
    exact fun hh => no_rows_of_next_season hok r hr hh.1

/-- C10, for a year other than 0 (explicit pairs). In a database that meets the schema
constraints, for a year other than 0 that no season has yet and a list `entries` whose
valid pairs (non-blank trimmed name, rank at least 1) carry pairwise distinct names, the
handler answers with the id of the new season, appends that season, and the entries of
the new season joined with the player names are exactly the valid pairs, each with the
rank as given, in the order given; the rows of every other season are left as they were.
Pairs with a blank name, a missing rank or a rank below 1 leave no row. -/
theorem initSeason_entries (db : Db) (year : Int) (pio : Option (List String))
    (es : List SeedEntry)
    (hok : SchemaOk db) (hy0 : year ≠ 0) (hnew : ∀ x ∈ db.seasons, x.year ≠ year)
    (hnd : ((validSeeds es).map (·.1)).Nodup) :
    (initSeason db ⟨some year, pio, some es⟩).1 = .json (nextInt (db.seasons.map (·.id)))
      ∧ (initSeason db ⟨some year, pio, some es⟩).2.seasons
          = db.seasons ++ [⟨nextInt (db.seasons.map (·.id)), year⟩]
      ∧ seasonRows db (nextInt (db.seasons.map (·.id))) = []
      ∧ seasonEntries (initSeason db ⟨some year, pio, some es⟩).2
          (nextInt (db.seasons.map (·.id))) = validSeeds es
      ∧ ∀ s', s' ≠ nextInt (db.seasons.map (·.id)) →
          seasonRows (initSeason db ⟨some year, pio, some es⟩).2 s' = seasonRows db s' := by
  have hI := insertSeason_new hnew
  have hnone := no_rows_of_next_season hok
  generalize hsid : nextInt (db.seasons.map (·.id)) = sid at *
  have hok0 : PlayersOk db := playersOk_of_schemaOk hok
  have hok1 : PlayersOk { db with seasons := db.seasons ++ [⟨sid, year⟩] } := hok0
  have hseason1 : ∃ x ∈ ({ db with seasons := db.seasons ++ [⟨sid, year⟩] } : Db).seasons,
      x.id = sid := ⟨⟨sid, year⟩, List.mem_append_right _ (List.mem_singleton.mpr rfl), rfl⟩
  have hno : ∀ p ∈ validSeeds es,
      rankOfName { db with seasons := db.seasons ++ [⟨sid, year⟩] } sid p.1 = none := by
    intro p _
    rw [← hsid]
    exact rankOfName_new_season hok year p.1
  obtain ⟨d', hrun, hok', hse', _, _, hsome', hrows'⟩ :=
    seedEntry_loop sid es _ hok1 hseason1 hnd hno
  have hrows0 : d'.season_rankings = db.season_rankings
      ++ (validSeeds es).map (fun p => ⟨sid, p.2, (getId d' p.1).getD 0⟩) := hrows'
  have hR := seasonRows_of_append hrows0 hnone (by
    intro r hr
    obtain ⟨p, _, hp⟩ := List.mem_map.mp hr
    rw [← hp])
  have hrun' : initSeason db ⟨some year, pio, some es⟩ = (.json sid, d') := by
    unfold initSeason
    dsimp only
    rw [if_neg hy0, if_neg (by simp)]
    unfold initTx
    rw [hI]
    simp only [bind, Except.bind, hrun, pure, Except.pure]
  rw [hrun']
  refine ⟨rfl, hse', ?_, ?_, hR.2⟩
  · unfold seasonRows
    rw [List.filter_eq_nil_iff]
    intro r hr
    rw [decide_eq_true_eq]
    exact hnone r hr
  · unfold seasonEntries
    show List.filterMap _ (seasonRows d' sid) = _
    rw [hR.1]
    exact filterMap_join_seeds sid (validSeeds es) hok'.1 hsome'

/-- Witness of C10 for a year other than 0: season 2026 is seeded in `ladderDb` with
explicit pairs, two of them at rank 4 and with a gap; the blank name and the rank 0 are
skipped. -/
theorem initSeason_entries_witness :
    seasonEntries (initSeason ladderDb ⟨some 2026, none,
        some [⟨some "Gen", some 4⟩, ⟨some "  ", some 2⟩, ⟨some "Hana", some 0⟩,
          ⟨some " Aki", some 4⟩, ⟨some "Ben", some 9⟩, ⟨some "Ito", none⟩]⟩).2
        (nextInt (ladderDb.seasons.map (·.id)))
      = validSeeds [⟨some "Gen", some 4⟩, ⟨some "  ", some 2⟩, ⟨some "Hana", some 0⟩,
          ⟨some " Aki", some 4⟩, ⟨some "Ben", some 9⟩, ⟨some "Ito", none⟩]
      ∧ validSeeds [⟨some "Gen", some 4⟩, ⟨some "  ", some 2⟩, ⟨some "Hana", some 0⟩,
          ⟨some " Aki", some 4⟩, ⟨some "Ben", some 9⟩, ⟨some "Ito", none⟩]
        = [("Gen", 4), ("Aki", 4), ("Ben", 9)] :=
  ⟨(initSeason_entries ladderDb 2026 none
      [⟨some "Gen", some 4⟩, ⟨some "  ", some 2⟩, ⟨some "Hana", some 0⟩,
        ⟨some " Aki", some 4⟩, ⟨some "Ben", some 9⟩, ⟨some "Ito", none⟩]
      (by decide) (by decide) (by decide) (by decide)).2.2.2.1, by decide⟩

/-- Counterexample to C10 as stated: the year 0 is new in `ladderDb` and the pair is
valid, yet the handler answers 400 and creates nothing. -/
theorem initSeason_entries_year_zero_counterexample :
    (∀ x ∈ ladderDb.seasons, x.year ≠ 0)
      ∧ validSeeds [⟨some "Gen", some 4⟩] = [("Gen", 4)]
      ∧ initSeason ladderDb ⟨some 0, none, some [⟨some "Gen", some 4⟩]⟩
          = (.error 400, ladderDb) := by
  decide

theorem positionSeedsFrom_cons (i : Nat) (raw : String) (rest : List String) :
    positionSeedsFrom i (raw :: rest)
      = if jsTrim raw = "" then positionSeedsFrom (i + 1) rest
        else (jsTrim raw, (i : Int) + 1) :: positionSeedsFrom (i + 1) rest := by
  unfold positionSeedsFrom
  rw [List.enumFrom_cons, List.filterMap_cons]
  by_cases h : jsTrim raw = ""
  · simp only [h, if_true]
  · simp only [h, if_false]

/-- The first loop of the `playersInOrder` branch: it goes through, upserts every
non-blank name and collects its id with the 1-based position. -/
theorem collectSeed_loop (l : List String) (i : Nat) (d : Db) (acc : List LadderSeed)
    (hk : (d.players.map (·.id)).Nodup) :
    ∃ d', (l.enumFrom i).foldlM collectSeed (d, acc)
          = .ok (d', acc ++ (positionSeedsFrom i l).map
              (fun p => ⟨(getId d' p.1).getD 0, p.2⟩))
      ∧ (d'.players.map (·.id)).Nodup
      ∧ d'.seasons = d.seasons ∧ d'.season_rankings = d.season_rankings
      ∧ d'.matches_ = d.matches_
      ∧ (∀ m j, getId d m = some j → getId d' m = some j)
      ∧ (∀ p ∈ positionSeedsFrom i l, ∃ j, getId d' p.1 = some j) := by
  induction l generalizing i d acc with
  | nil =>
    refine ⟨d, ?_, hk, rfl, rfl, rfl, fun _ _ h => h, ?_⟩
    · show Except.ok (d, acc) = Except.ok (d, acc ++ [])
      rw [List.append_nil]
    · intro p hp; cases hp
  | cons raw rest ih =>
    rw [List.enumFrom_cons, List.foldlM_cons, positionSeedsFrom_cons]
    by_cases hb : jsTrim raw = ""
    · have hstep : collectSeed (d, acc) (i, raw) = .ok (d, acc) := by
        unfold collectSeed
        dsimp only
        rw [if_pos hb]
      rw [hstep, if_pos hb]
      exact ih (i + 1) d acc hk
    · have hg := getId_upsert_self d (jsTrim raw)
      have hstep : collectSeed (d, acc) (i, raw)
          = .ok (upsertPlayer d (jsTrim raw),
              acc ++ [⟨idAfterUpsert d (jsTrim raw), (i : Int) + 1⟩]) := by
        unfold collectSeed
        dsimp only
        rw [if_neg hb]
        simp only [bind, Except.bind, hg, orThrow, pure, Except.pure]
      rw [hstep, if_neg hb]
      obtain ⟨d', hrun, hk', hse', hrk', hma', hstab', hsome'⟩ :=
        ih (i + 1) (upsertPlayer d (jsTrim raw))
          (acc ++ [⟨idAfterUpsert d (jsTrim raw), (i : Int) + 1⟩])
          (ids_nodup_upsert (jsTrim raw) hk)
      have hT := upsertPlayer_tables d (jsTrim raw)
      have hgn' := hstab' _ _ hg
      refine ⟨d', ?_, hk', hse'.trans hT.2.1, hrk'.trans hT.1, hma'.trans hT.2.2,
        fun m j hm => hstab' m j (getId_upsert_of_some _ hm), ?_⟩
      · show List.foldlM collectSeed _ (rest.enumFrom (i + 1)) = _
        rw [hrun, List.map_cons, hgn', List.append_assoc]
        rfl
      · intro p hp
        rcases List.mem_cons.mp hp with hp | hp
        · rw [hp]; exact ⟨_, hgn'⟩
        · exact hsome' p hp

/-- The second loop of the `playersInOrder` branch: it goes through when the collected
players are distinct, exist, and hold no entry in the season; the rows are appended in
order. -/
theorem insertLadder_loop (sid : Int) (ladder : List LadderSeed) (d : Db)
    (hseason : ∃ x ∈ d.seasons, x.id = sid)
    (hnd : (ladder.map (·.player_id)).Nodup)
    (hpl : ∀ row ∈ ladder, ∃ q ∈ d.players, q.id = row.player_id)
    (hno : ∀ row ∈ ladder, hasEntry d sid row.player_id = false) :
    ∃ d', ladder.foldlM (fun d row => insertRanking d sid row.rank row.player_id) d = .ok d'
      ∧ d'.players = d.players ∧ d'.seasons = d.seasons ∧ d'.matches_ = d.matches_
      ∧ d'.season_rankings = d.season_rankings ++ ladder.map (seedRow sid) := by
  induction ladder generalizing d with
  | nil =>
    refine ⟨d, rfl, rfl, rfl, rfl, ?_⟩
    show d.season_rankings = d.season_rankings ++ []
    rw [List.append_nil]
  | cons row rest ih =>
    rw [List.map_cons, List.nodup_cons] at hnd
    have h1 := insertRanking_ok (k := row.rank) (hno row (List.mem_cons_self _ _)) hseason
      (hpl row (List.mem_cons_self _ _))
    rw [List.foldlM_cons, h1]
    obtain ⟨d', hrun, hp', hs', hm', hr'⟩ := ih (withRow d sid row.rank row.player_id)
      hseason hnd.2 (fun r hr => hpl r (List.mem_cons_of_mem _ hr)) (by
        intro r hr
        rw [hasEntry_withRow, hno r (List.mem_cons_of_mem _ hr), decide_eq_false]
        · rfl
        · intro hh
          exact hnd.1 (hh.2 ▸ List.mem_map_of_mem (·.player_id) hr))
    refine ⟨d', hrun, hp', hs', hm', ?_⟩
    rw [hr']
    show (d.season_rankings ++ [_]) ++ _ = _
    rw [List.append_assoc]
    rfl

/-- C9, for a year other than 0 (ordered names). In a database that meets the schema
constraints, for a year other than 0 that no season has yet and a sequence of names
whose non-blank trimmed names are pairwise distinct, the handler answers with the id of
the new season, appends that season, and the entries of the new season joined with the
player names are exactly the non-blank trimmed names, each with its 1-based position in
the whole sequence as rank: `(n, k)` is an entry iff some position `i` holds a name that
trims to the non-blank `n` and `k = i + 1`. Blank names leave no row and do not make
the handler fail; the rows of every other season are left as they were. -/
theorem initSeason_ordered (db : Db) (year : Int) (names : List String)
    (hok : SchemaOk db) (hy0 : year ≠ 0) (hnew : ∀ x ∈ db.seasons, x.year ≠ year)
    (hnd : ((positionSeeds names).map (·.1)).Nodup) :
    (initSeason db ⟨some year, some names, none⟩).1 = .json (nextInt (db.seasons.map (·.id)))
      ∧ (initSeason db ⟨some year, some names, none⟩).2.seasons
          = db.seasons ++ [⟨nextInt (db.seasons.map (·.id)), year⟩]
      ∧ seasonRows db (nextInt (db.seasons.map (·.id))) = []
      ∧ seasonEntries (initSeason db ⟨some year, some names, none⟩).2
          (nextInt (db.seasons.map (·.id))) = positionSeeds names
      ∧ (∀ n k, (n, k) ∈ seasonEntries (initSeason db ⟨some year, some names, none⟩).2
            (nextInt (db.seasons.map (·.id)))
          ↔ ∃ (i : Nat) (raw : String),
              names[i]? = some raw ∧ jsTrim raw = n ∧ n ≠ "" ∧ k = (i : Int) + 1)
      ∧ ∀ s', s' ≠ nextInt (db.seasons.map (·.id)) →
          seasonRows (initSeason db ⟨some year, some names, none⟩).2 s' = seasonRows db s' := by
  have hI := insertSeason_new hnew
  have hnone := no_rows_of_next_season hok
  generalize hsid : nextInt (db.seasons.map (·.id)) = sid at *
  have hk0 : (db.players.map (·.id)).Nodup := hok.1
  obtain ⟨d2, hrun2, hk2, hse2, hrk2, _, _, hsome2⟩ :=
    collectSeed_loop names 0 { db with seasons := db.seasons ++ [⟨sid, year⟩] } [] hk0
  have hse2' : d2.seasons = db.seasons ++ [⟨sid, year⟩] := hse2
  have hrk2' : d2.season_rankings = db.season_rankings := hrk2
  rw [List.nil_append] at hrun2
  have hseeds : positionSeedsFrom 0 names = positionSeeds names := rfl
  rw [hseeds] at hrun2 hsome2
  -- the second loop
  have hnd2 : (((positionSeeds names).map
      (fun p => (⟨(getId d2 p.1).getD 0, p.2⟩ : LadderSeed))).map (·.player_id)).Nodup := by
    have e : ((positionSeeds names).map
        (fun p => (⟨(getId d2 p.1).getD 0, p.2⟩ : LadderSeed))).map (·.player_id)
        = ((positionSeeds names).map (·.1)).map (fun n => (getId d2 n).getD 0) := by
      rw [List.map_map, List.map_map]; rfl
    rw [e]
    apply List.Nodup.map_on _ hnd
    intro x hx y hy hxy
    obtain ⟨p, hp, hpx⟩ := List.mem_map.mp hx
    obtain ⟨q, hq, hqy⟩ := List.mem_map.mp hy
    obtain ⟨a, ha⟩ := hsome2 p hp
    obtain ⟨b, hb⟩ := hsome2 q hq
    rw [hpx] at ha
    rw [hqy] at hb
    rw [ha, hb] at hxy
    have hab : a = b := hxy
    exact getId_inj hk2 ha (hab ▸ hb)
  obtain ⟨d3, hrun3, hp3, hs3, _, hr3⟩ := insertLadder_loop sid
    ((positionSeeds names).map (fun p => (⟨(getId d2 p.1).getD 0, p.2⟩ : LadderSeed))) d2
    (by rw [hse2']
        exact ⟨⟨sid, year⟩, List.mem_append_right _ (List.mem_singleton.mpr rfl), rfl⟩)
    hnd2
    (by
      intro row hrow
      obtain ⟨p, hp, hprow⟩ := List.mem_map.mp hrow
      obtain ⟨a, ha⟩ := hsome2 p hp
      obtain ⟨q, hq, _, hqi⟩ := getId_some_mem ha
      refine ⟨q, hq, ?_⟩
      rw [← hprow, ha]
      exact hqi)
    (by
      intro row _
      unfold hasEntry
      rw [hrk2', List.any_eq_false]
      intro r hr
      rw [decide_eq_true_eq]
      exact fun hh => hnone r hr hh.1)
  have hg3 : ∀ n, getId d3 n = getId d2 n := by
    intro n; unfold getId; rw [hp3]
  have hrows3 : d3.season_rankings = db.season_rankings
      ++ (positionSeeds names).map (fun p => ⟨sid, p.2, (getId d3 p.1).getD 0⟩) := by
    rw [hr3, hrk2', List.map_map]
    congr 1
    apply List.map_congr_left
    intro p _
    show seedRow sid ⟨(getId d2 p.1).getD 0, p.2⟩ = _
    rw [hg3]
    rfl
  have hR := seasonRows_of_append hrows3 hnone (by
    intro r hr
    obtain ⟨p, _, hp⟩ := List.mem_map.mp hr
    rw [← hp])
  have hrun' : initSeason db ⟨some year, some names, none⟩ = (.json sid, d3) := by
    unfold initSeason
    dsimp only
    rw [if_neg hy0, if_neg (by simp)]
    unfold initTx
    rw [hI]
    simp only [bind, Except.bind, Option.getD_some, List.enum, hrun2, hrun3, pure, Except.pure]
  have hentries : seasonEntries d3 sid = positionSeeds names := by
    unfold seasonEntries
    rw [hR.1]
    exact filterMap_join_seeds sid (positionSeeds names) (by rw [hp3]; exact hk2)
      (fun p hp => by rw [hg3]; exact hsome2 p hp)
  rw [hrun']
  refine ⟨rfl, ?_, ?_, hentries, ?_, hR.2⟩
  · show d3.seasons = _
    rw [hs3, hse2']
  · unfold seasonRows
    rw [List.filter_eq_nil_iff]
    intro r hr
    rw [decide_eq_true_eq]
    exact hnone r hr
  · intro n k
    show (n, k) ∈ seasonEntries d3 sid ↔ _
    rw [hentries]
    unfold positionSeeds positionSeedsFrom
    rw [List.mem_filterMap]
    constructor
    · rintro ⟨⟨i, raw⟩, hmem, hval⟩
      have hget : names[i]? = some raw := List.mk_mem_enum_iff_getElem?.mp hmem
      by_cases hb : jsTrim raw = ""
      · rw [if_pos hb] at hval; cases hval
      · rw [if_neg hb] at hval
        have h1 := Option.some.inj hval
        have hn : jsTrim raw = n := congrArg Prod.fst h1
        have hk : (i : Int) + 1 = k := congrArg Prod.snd h1
        exact ⟨i, raw, hget, hn, hn ▸ hb, hk.symm⟩
    · rintro ⟨i, raw, hget, hn, hne, hk⟩
      refine ⟨(i, raw), List.mk_mem_enum_iff_getElem?.mpr hget, ?_⟩
      show (if jsTrim raw = "" then none else some (jsTrim raw, (i : Int) + 1)) = some (n, k)
      rw [if_neg (by rw [hn]; exact hne), hn, hk]

/-- Witness of C9 for a year other than 0: season 2026 is seeded in `ladderDb` with four
names, the second of them blank. -/
theorem initSeason_ordered_witness :
    seasonEntries (initSeason ladderDb ⟨some 2026, some ["Aki", "  ", " Gen", "Ben "], none⟩).2
        (nextInt (ladderDb.seasons.map (·.id)))
      = positionSeeds ["Aki", "  ", " Gen", "Ben "]
      ∧ positionSeeds ["Aki", "  ", " Gen", "Ben "] = [("Aki", 1), ("Gen", 3), ("Ben", 4)] :=
  ⟨(initSeason_ordered ladderDb 2026 ["Aki", "  ", " Gen", "Ben "]
      (by decide) (by decide) (by decide) (by decide)).2.2.2.1, by decide⟩

/-- Counterexample to C9 as stated: the year 0 is new in `ladderDb` and the names are
distinct, yet the handler answers 400 and creates nothing. -/
theorem initSeason_ordered_year_zero_counterexample :
    (∀ x ∈ ladderDb.seasons, x.year ≠ 0)
      ∧ positionSeeds ["Gen", "Hana"] = [("Gen", 1), ("Hana", 2)]
      ∧ initSeason ladderDb ⟨some 0, some ["Gen", "Hana"], none⟩ = (.error 400, ladderDb) := by
  decide

/-! ## Validation of `POST /matches` -/

/-- C11 (validation). When the season id of the request is missing or not a number
(`none`), or zero, or the winner name or the loser name is missing or blank after
trimming, the handler answers with status 400 and the database after it is the database
before it: no player, no match record, no ranking row is added or changed. -/
theorem reportMatch_validation (db : Db) (body : MatchBody) (now : String)
    (h : body.season_id = none ∨ body.season_id = some 0
      ∨ body.winner_name = none ∨ trimField body.winner_name = ""
      ∨ body.loser_name = none ∨ trimField body.loser_name = "") :
    reportMatch db body now = (.error 400, db) := by
  have hnone : trimField none = "" := by decide
  have h' : body.season_id = none ∨ body.season_id = some 0
      ∨ trimField body.winner_name = "" ∨ trimField body.loser_name = "" := by
    rcases h with h | h | h | h | h | h
    · exact Or.inl h
    · exact Or.inr (Or.inl h)
    · right; right; left; rw [h]; exact hnone
    · right; right; left; exact h
    · right; right; right; rw [h]; exact hnone
    · right; right; right; exact h
  unfold reportMatch
  rcases h' with h | h | h | h
  · rw [h]
  · rw [h]; dsimp only; rw [if_pos (Or.inl rfl)]
  · cases body.season_id with
    | none => rfl
    | some sid => dsimp only; rw [if_pos (Or.inr (Or.inl h))]
  · cases body.season_id with
    | none => rfl
    | some sid => dsimp only; rw [if_pos (Or.inr (Or.inr h))]

/-- Witness of C11: a report for season 1 of `ladderDb` whose loser name is blank. -/
theorem reportMatch_validation_witness :
    reportMatch ladderDb (reportOf 1 "Aki" "  ") "t" = (.error 400, ladderDb)
      ∧ reportMatch ladderDb ⟨none, some "Aki", some "Ben", none, none, none⟩ "t"
          = (.error 400, ladderDb) :=
  ⟨reportMatch_validation ladderDb (reportOf 1 "Aki" "  ") "t"
      (Or.inr (Or.inr (Or.inr (Or.inr (Or.inr (by decide)))))),
    reportMatch_validation ladderDb ⟨none, some "Aki", some "Ben", none, none, none⟩ "t"
      (Or.inl rfl)⟩

/-! ## The ensure step -/

theorem foldl_max_mem_int (l : List Int) (a : Int) :
    l.foldl max a = a ∨ l.foldl max a ∈ l := by
  induction l generalizing a with
  | nil => exact Or.inl rfl
  | cons x t ih =>
    rw [List.foldl_cons]
    rcases ih (max a x) with h | h
    · rw [h]
      rcases max_choice a x with hm | hm
      · exact Or.inl hm
      · right
        rw [hm]
        exact List.mem_cons_self _ _
    · exact Or.inr (List.mem_cons_of_mem _ h)

/-- The value of `COALESCE(MAX(rank), 0)`: 0 on an empty season, else a rank of the
season that no rank of the season exceeds. -/
theorem maxRank_spec (db : Db) (s : Int) :
    (seasonRows db s = [] → maxRank db s = 0)
      ∧ (seasonRows db s ≠ [] → ∃ r ∈ seasonRows db s, r.rank = maxRank db s)
      ∧ (∀ r ∈ seasonRows db s, r.rank ≤ maxRank db s) := by
  unfold maxRank
  cases hrows : seasonRows db s with
  | nil =>
    refine ⟨fun _ => rfl, fun h => absurd rfl h, ?_⟩
    intro r hr; cases hr
  | cons a t =>
    refine ⟨fun h => absurd h (List.cons_ne_nil _ _), fun _ => ?_, ?_⟩
    · rw [List.map_cons]
      rcases foldl_max_mem_int (t.map (·.rank)) a.rank with h | h
      · exact ⟨a, List.mem_cons_self _ _, h.symm⟩
      · obtain ⟨r, hr, hrr⟩ := List.mem_map.mp h
        exact ⟨r, List.mem_cons_of_mem _ hr, hrr⟩
    · intro r hr
      rw [List.map_cons]
      have hge := foldl_max_ge_int (t.map (·.rank)) a.rank
      rcases List.mem_cons.mp hr with hr | hr
      · rw [hr]; exact hge.1
      · exact hge.2 _ (List.mem_map_of_mem (·.rank) hr)

/-- The inline ensure step of `POST /matches` and `ensureInLadder` are one function. -/
theorem ensure_eq_ensureInLadder (db : Db) (s : Int) (p : Nat) :
    ensure db s p = ensureInLadder db s p := by
  unfold ensure ensureInLadder
  by_cases h : hasEntry db s p = true
  · rw [if_neg (not_not.mpr h), if_pos h]
  · rw [if_pos h, if_neg h]
    dsimp only
    by_cases h0 : maxRank db s = 0
    · rw [if_pos h0, h0]
    · rw [if_neg h0]

/-- The ensure step goes through for an existing season and player, and yields `ensured`. -/
theorem ensure_ok (db : Db) {s : Int} {p : Nat}
    (hs : ∃ x ∈ db.seasons, x.id = s) (hp : ∃ q ∈ db.players, q.id = p) :
    ensure db s p = .ok (ensured db s p) := by
  unfold ensured
  by_cases h : hasEntry db s p = true
  · rw [if_pos h]
    unfold ensure
    rw [if_neg (not_not.mpr h)]
  · rw [if_neg h]
    exact ensure_absent db (Bool.eq_false_iff.mpr h) hs hp

theorem ensured_tables (d : Db) (s : Int) (p : Nat) :
    (ensured d s p).players = d.players ∧ (ensured d s p).seasons = d.seasons
      ∧ (ensured d s p).matches_ = d.matches_ := by
  unfold ensured
  split <;> exact ⟨rfl, rfl, rfl⟩

theorem hasEntry_ensured_self (d : Db) (s : Int) (p : Nat) : hasEntry (ensured d s p) s p = true := by
  unfold ensured
  by_cases h : hasEntry d s p = true
  · rw [if_pos h]; exact h
  · rw [if_neg h, hasEntry_withRow, decide_eq_true ⟨rfl, rfl⟩, Bool.or_true]

theorem hasEntry_ensured_of {d : Db} {s' : Int} {q : Nat} (s : Int) (p : Nat)
    (h : hasEntry d s' q = true) : hasEntry (ensured d s p) s' q = true := by
  unfold ensured
  split
  · exact h
  · rw [hasEntry_withRow, h, Bool.true_or]

theorem rankOf_some_of_hasEntry {d : Db} {s : Int} {p : Nat} (h : hasEntry d s p = true) :
    ∃ a, rankOf d s p = some a := by
  cases hr : rankOf d s p with
  | some a => exact ⟨a, rfl⟩
  | none =>
    rw [rankOf_eq_none_iff] at hr
    rw [hr] at h
    cases h

theorem logged_tables (db : Db) (s : Int) (wn ln t : String) (sc nt : Option String) :
    (logged db s wn ln t sc nt).season_rankings = db.season_rankings
      ∧ (logged db s wn ln t sc nt).seasons = db.seasons
      ∧ (logged db s wn ln t sc nt).players = (upsertPlayer (upsertPlayer db wn) ln).players
      ∧ (logged db s wn ln t sc nt).matches_
          = db.matches_ ++ [matchRecord s t (winnerId db wn) (loserId db wn ln) sc nt] := by
  have h1 := upsertPlayer_tables db wn
  have h2 := upsertPlayer_tables (upsertPlayer db wn) ln
  unfold logged
  refine ⟨h2.1.trans h1.1, h2.2.1.trans h1.2.1, rfl, ?_⟩
  show (upsertPlayer (upsertPlayer db wn) ln).matches_ ++ _ = _
  rw [h2.2.2, h1.2.2]

/-- The ids the handler reads after the two upserts. -/
theorem getId_after_upserts (db : Db) (wn ln : String) :
    getId (upsertPlayer (upsertPlayer db wn) ln) wn = some (winnerId db wn)
      ∧ getId (upsertPlayer (upsertPlayer db wn) ln) ln = some (loserId db wn ln) :=
  ⟨getId_upsert_of_some ln (getId_upsert_self db wn), getId_upsert_self _ ln⟩

/-- The transaction up to the read of the ranks goes through whenever the season exists. -/
theorem matchAdmit_eq (db : Db) (s : Int) (wn ln t : String) (sc nt : Option String)
    (hseason : ∃ x ∈ db.seasons, x.id = s) :
    matchAdmit db s wn ln t sc nt
      = .ok (admitted db s wn ln t sc nt, winnerId db wn, loserId db wn ln) := by
  obtain ⟨hgw, hgl⟩ := getId_after_upserts db wn ln
  obtain ⟨pw, hpw, _, hpwi⟩ := getId_some_mem hgw
  obtain ⟨pl, hpl, _, hpli⟩ := getId_some_mem hgl
  have hT := logged_tables db s wn ln t sc nt
  have hse1 : (upsertPlayer (upsertPlayer db wn) ln).seasons = db.seasons := by
    rw [(upsertPlayer_tables _ ln).2.1, (upsertPlayer_tables db wn).2.1]
  have hM : insertMatch (upsertPlayer (upsertPlayer db wn) ln)
      (matchRecord s t (winnerId db wn) (loserId db wn ln) sc nt)
      = .ok (logged db s wn ln t sc nt) := by
    unfold insertMatch
    have h1 : (upsertPlayer (upsertPlayer db wn) ln).seasons.any
        (fun x => x.id = (matchRecord s t (winnerId db wn) (loserId db wn ln) sc nt).season_id)
        = true := by
      rw [List.any_eq_true, hse1]
      obtain ⟨x, hx, hxs⟩ := hseason
      exact ⟨x, hx, decide_eq_true hxs⟩
    have h2 : (upsertPlayer (upsertPlayer db wn) ln).players.any
        (fun p => p.id = (matchRecord s t (winnerId db wn) (loserId db wn ln) sc nt).winner_id)
        = true := by
      rw [List.any_eq_true]
      exact ⟨pw, hpw, decide_eq_true hpwi⟩
    have h3 : (upsertPlayer (upsertPlayer db wn) ln).players.any
        (fun p => p.id = (matchRecord s t (winnerId db wn) (loserId db wn ln) sc nt).loser_id)
        = true := by
      rw [List.any_eq_true]
      exact ⟨pl, hpl, decide_eq_true hpli⟩
    rw [h1, h2, h3]
    rfl
  have hE1 : ensure (logged db s wn ln t sc nt) s (winnerId db wn)
      = .ok (ensured (logged db s wn ln t sc nt) s (winnerId db wn)) :=
    ensure_ok _ (by rw [hT.2.1]; exact hseason) ⟨pw, by rw [hT.2.2.1]; exact hpw, hpwi⟩
  have hE2 : ensure (ensured (logged db s wn ln t sc nt) s (winnerId db wn)) s (loserId db wn ln)
      = .ok (admitted db s wn ln t sc nt) :=
    ensure_ok _ (by rw [(ensured_tables _ _ _).2.1, hT.2.1]; exact hseason)
      ⟨pl, by rw [(ensured_tables _ _ _).1, hT.2.2.1]; exact hpl, hpli⟩
  unfold matchAdmit
  have e1 : [wn, ln].foldl upsertPlayer db = upsertPlayer (upsertPlayer db wn) ln := rfl
  rw [e1]
  dsimp only
  rw [hgw, hgl]
  simp only [orThrow, bind, Except.bind, hM, hE1, hE2, pure, Except.pure]

/-- Without the season, the match record violates its foreign key and the transaction
throws. -/
theorem matchTx_no_season (db : Db) (s : Int) (wn ln t : String) (sc nt : Option String)
    (hseason : ¬ ∃ x ∈ db.seasons, x.id = s) :
    matchTx db s wn ln t sc nt = .error .foreignKeyViolation := by
  obtain ⟨hgw, hgl⟩ := getId_after_upserts db wn ln
  have hse1 : (upsertPlayer (upsertPlayer db wn) ln).seasons = db.seasons := by
    rw [(upsertPlayer_tables _ ln).2.1, (upsertPlayer_tables db wn).2.1]
  have hM : insertMatch (upsertPlayer (upsertPlayer db wn) ln)
      (matchRecord s t (winnerId db wn) (loserId db wn ln) sc nt)
      = .error .foreignKeyViolation := by
    unfold insertMatch
    have h1 : (upsertPlayer (upsertPlayer db wn) ln).seasons.any
        (fun x => x.id = (matchRecord s t (winnerId db wn) (loserId db wn ln) sc nt).season_id)
        = false := by
      rw [List.any_eq_false, hse1]
      intro x hx hxs
      exact hseason ⟨x, hx, of_decide_eq_true hxs⟩
    rw [h1]
    rfl
  unfold matchTx matchAdmit
  have e1 : [wn, ln].foldl upsertPlayer db = upsertPlayer (upsertPlayer db wn) ln := rfl
  rw [e1]
  dsimp only
  rw [hgw, hgl]
  simp only [orThrow, bind, Except.bind, hM]

/-- The whole transaction goes through whenever the season exists: the rule is applied
to the ranks the two players hold after the ensure steps. -/
theorem matchTx_eq (db : Db) (s : Int) (wn ln t : String) (sc nt : Option String)
    (hseason : ∃ x ∈ db.seasons, x.id = s) :
    ∃ a b, rankOf (admitted db s wn ln t sc nt) s (winnerId db wn) = some a
      ∧ rankOf (admitted db s wn ln t sc nt) s (loserId db wn ln) = some b
      ∧ ranksRead db s wn ln t sc nt = .ok (a, b)
      ∧ matchTx db s wn ln t sc nt
          = .ok (matchRule (admitted db s wn ln t sc nt) s (winnerId db wn) a b) := by
  have hA := matchAdmit_eq db s wn ln t sc nt hseason
  have hw : hasEntry (admitted db s wn ln t sc nt) s (winnerId db wn) = true :=
    hasEntry_ensured_of s _ (hasEntry_ensured_self _ s _)
  have hl : hasEntry (admitted db s wn ln t sc nt) s (loserId db wn ln) = true :=
    hasEntry_ensured_self _ s _
  obtain ⟨a, ha⟩ := rankOf_some_of_hasEntry hw
  obtain ⟨b, hb⟩ := rankOf_some_of_hasEntry hl
  have hR := matchRanks_of_rankOf _ ha hb
  refine ⟨a, b, ha, hb, ?_, ?_⟩
  · unfold ranksRead
    rw [hA]
    exact hR
  · unfold matchTx
    rw [hA]
    simp only [bind, Except.bind, hR, pure, Except.pure]

/-- The database a report leaves: the one it received, or the one the rule produces from
the admitted ladder of an existing season. -/
theorem reportMatch_db_cases (db : Db) (body : MatchBody) (now : String) :
    (reportMatch db body now).2 = db
      ∨ ∃ (s : Int) (wn ln t : String) (sc nt : Option String) (a b : Int),
          (∃ x ∈ db.seasons, x.id = s)
          ∧ rankOf (admitted db s wn ln t sc nt) s (winnerId db wn) = some a
          ∧ rankOf (admitted db s wn ln t sc nt) s (loserId db wn ln) = some b
          ∧ (reportMatch db body now).2
              = matchRule (admitted db s wn ln t sc nt) s (winnerId db wn) a b := by
  unfold reportMatch
  cases body.season_id with
  | none => exact Or.inl rfl
  | some sid =>
    dsimp only
    by_cases hinv : sid = 0 ∨ trimField body.winner_name = "" ∨ trimField body.loser_name = ""
    · rw [if_pos hinv]; exact Or.inl rfl
    · rw [if_neg hinv]
      by_cases hseason : ∃ x ∈ db.seasons, x.id = sid
      · obtain ⟨a, b, ha, hb, _, hT⟩ := matchTx_eq db sid (trimField body.winner_name)
          (trimField body.loser_name) ((orNull body.played_at).getD now) (orNull body.score)
          (orNull body.note) hseason
        rw [hT]
        exact Or.inr ⟨sid, _, _, _, _, _, a, b, hseason, ha, hb, rfl⟩
      · rw [matchTx_no_season db sid _ _ _ _ _ hseason]
        exact Or.inl rfl

/-! ## Invariants of the ladder -/

theorem maxRank_nonneg {d : Db} {s : Int} (h : RanksPositive d s) : 0 ≤ maxRank d s := by
  have hm := maxRank_spec d s
  by_cases he : seasonRows d s = []
  · rw [hm.1 he]
  · obtain ⟨r, hr, hrr⟩ := hm.2.1 he
    unfold seasonRows at hr
    have h1 := List.mem_filter.mp hr
    have h2 := h r h1.1 (of_decide_eq_true h1.2)
    omega

theorem ranksPositive_of_rows {d d' : Db} {s : Int}
    (hrows : d'.season_rankings = d.season_rankings) (h : RanksPositive d s) :
    RanksPositive d' s := by
  unfold RanksPositive at h ⊢
  rw [hrows]
  exact h

theorem ranksPositive_withRow {d : Db} {s' : Int} (s k : Int) (p : Nat)
    (hk : s = s' → 1 ≤ k) (h : RanksPositive d s') : RanksPositive (withRow d s k p) s' := by
  intro r hr hs
  have hr' : r ∈ d.season_rankings ++ [⟨s, k, p⟩] := hr
  rcases List.mem_append.mp hr' with hr' | hr'
  · exact h r hr' hs
  · rw [List.mem_singleton] at hr'
    rw [hr'] at hs ⊢
    exact hk hs

theorem ranksPositive_ensured {d : Db} {s' : Int} (s : Int) (p : Nat)
    (h : RanksPositive d s') : RanksPositive (ensured d s p) s' := by
  unfold ensured
  split
  · exact h
  · apply ranksPositive_withRow s _ p _ h
    intro hs
    have := maxRank_nonneg (hs ▸ h : RanksPositive d s)
    omega

theorem ranksPositive_matchRule {d : Db} {s' : Int} (s : Int) (w : Nat) (a b : Int)
    (h : RanksPositive d s') : RanksPositive (matchRule d s w a b) s' := by
  unfold matchRule
  split
  · exact h
  · split
    · intro r hr hs
      have hr' : r ∈ d.season_rankings.map (fun r =>
          if r.season_id = s ∧ r.player_id = w then { r with rank := max 1 (b - 1) } else r) := hr
      obtain ⟨x, hx, hxr⟩ := List.mem_map.mp hr'
      by_cases hc : x.season_id = s ∧ x.player_id = w
      · rw [if_pos hc] at hxr
        rw [← hxr]
        exact le_max_left 1 (b - 1)
      · rw [if_neg hc] at hxr
        rw [← hxr] at hs ⊢
        exact h x hx hs
    · intro r hr hs
      have hr' : r ∈ d.season_rankings.map (fun r =>
          if r.season_id = s ∧ r.rank = a ∧ r.player_id ≠ w then
            { r with rank := r.rank + 1 } else r) := hr
      obtain ⟨x, hx, hxr⟩ := List.mem_map.mp hr'
      by_cases hc : x.season_id = s ∧ x.rank = a ∧ x.player_id ≠ w
      · rw [if_pos hc] at hxr
        rw [← hxr] at hs ⊢
        have := h x hx hs
        show 1 ≤ x.rank + 1
        omega
      · rw [if_neg hc] at hxr
        rw [← hxr] at hs ⊢
        exact h x hx hs

theorem ranksPositive_admitted {db : Db} {s' : Int} (s : Int) (wn ln t : String)
    (sc nt : Option String) (h : RanksPositive db s') :
    RanksPositive (admitted db s wn ln t sc nt) s' := by
  unfold admitted
  apply ranksPositive_ensured
  apply ranksPositive_ensured
  exact ranksPositive_of_rows (logged_tables db s wn ln t sc nt).1 h

theorem bind_eq_ok {α β : Type} {x : Except TxError α} {f : α → Except TxError β} {b : β}
    (h : x >>= f = .ok b) : ∃ a, x = .ok a ∧ f a = .ok b := by
  cases x with
  | error e => cases h
  | ok a => exact ⟨a, rfl, h⟩

/-- A property that every successful step keeps is kept by a successful loop. -/
theorem foldlM_keeps {α β : Type} (f : β → α → Except TxError β) (P : β → Prop)
    (l : List α) (hstep : ∀ a ∈ l, ∀ b b', f b a = .ok b' → P b → P b') :
    ∀ b b', l.foldlM f b = .ok b' → P b → P b' := by
  induction l with
  | nil =>
    intro b b' h hb
    have : b = b' := Except.ok.inj h
    exact this ▸ hb
  | cons a t ih =>
    intro b b' h hb
    rw [List.foldlM_cons] at h
    obtain ⟨b1, h1, h2⟩ := bind_eq_ok h
    exact ih (fun a' ha' => hstep a' (List.mem_cons_of_mem _ ha')) b1 b' h2
      (hstep a (List.mem_cons_self _ _) b b1 h1 hb)

theorem insertRanking_inv {d d' : Db} {s k : Int} {p : Nat}
    (h : insertRanking d s k p = .ok d') :
    hasEntry d s p = false ∧ d' = withRow d s k p := by
  unfold insertRanking at h
  by_cases he : hasEntry d s p = true
  · rw [if_pos he] at h; cases h
  · rw [if_neg he] at h
    refine ⟨Bool.eq_false_iff.mpr he, ?_⟩
    split at h
    · exact (Except.ok.inj h).symm
    · cases h

theorem insertRanking_not_unique {d : Db} {s k : Int} {p : Nat}
    (he : hasEntry d s p = false) : insertRanking d s k p ≠ .error .uniqueViolation := by
  unfold insertRanking
  rw [he]
  simp only [Bool.false_eq_true, if_false]
  split
  · exact fun h => Except.noConfusion h
  · exact fun h => TxError.noConfusion (Except.error.inj h)

/-- What a successful placement transaction does to the ranking rows. -/
theorem placeTx_inv {db d' : Db} {s : Int} {n : String} {rk : Option Int} {v : PlaceVars}
    (h : placeTx db s n rk = .ok (d', v)) :
    d'.season_rankings = db.season_rankings
      ∨ ∃ (R : Int) (pid : Nat), hasEntry db s pid = false
          ∧ d'.season_rankings = db.season_rankings ++ [⟨s, R, pid⟩]
          ∧ (R = maxRank db s + 1 ∨ 1 ≤ R) := by
  have hT := upsertPlayer_tables db n
  have hmx : maxRank (upsertPlayer db n) s = maxRank db s := by
    unfold maxRank seasonRows; rw [hT.1]
  unfold placeTx at h
  dsimp only at h
  rw [getId_upsert_self db n] at h
  simp only [bind, Except.bind] at h
  cases hr : rankOf (upsertPlayer db n) s (idAfterUpsert db n) with
  | some r =>
    rw [hr] at h
    have h1 : (upsertPlayer db n, (⟨true, some r, some (idAfterUpsert db n), none⟩ : PlaceVars))
        = (d', v) := Except.ok.inj h
    left
    rw [← (Prod.mk.inj h1).1]
    exact hT.1
  | none =>
    rw [hr] at h
    dsimp only at h
    right
    generalize hR : (match rk with
      | some k => if k ≥ 1 then k else maxRank (upsertPlayer db n) s + 1
      | none => maxRank (upsertPlayer db n) s + 1) = R at h
    have hRv : R = maxRank db s + 1 ∨ 1 ≤ R := by
      rw [← hR, hmx]
      cases rk with
      | none => exact Or.inl rfl
      | some k =>
        dsimp only
        by_cases hk : k ≥ 1
        · rw [if_pos hk]; exact Or.inr hk
        · rw [if_neg hk]; exact Or.inl rfl
    cases hI : insertRanking (upsertPlayer db n) s R (idAfterUpsert db n) with
    | error e => rw [hI] at h; cases h
    | ok d2 =>
      rw [hI] at h
      obtain ⟨he, hd2⟩ := insertRanking_inv hI
      dsimp only at h
      cases hf : orThrow (rankOf d2 s (idAfterUpsert db n)) with
      | error e => rw [hf] at h; cases h
      | ok fr =>
        rw [hf] at h
        have h1 := Except.ok.inj h
        have h2 : d2 = d' := (Prod.mk.inj h1).1
        refine ⟨R, idAfterUpsert db n, ?_, ?_, hRv⟩
        · unfold hasEntry at he ⊢
          rw [hT.1] at he
          exact he
        · rw [← h2, hd2]
          show (upsertPlayer db n).season_rankings ++ _ = _
          rw [hT.1]

/-- The database a placement leaves: the one it received, or the result of its
transaction. -/
theorem placePlayer_db_cases (db : Db) (sid : Option Int) (body : PlaceBody) :
    (placePlayer db sid body).2 = db
      ∨ ∃ (s : Int) (n : String) (rk : Option Int) (d' : Db) (v : PlaceVars),
          placeTx db s n rk = .ok (d', v) ∧ (placePlayer db sid body).2 = d' := by
  unfold placePlayer
  cases sid with
  | none => exact Or.inl rfl
  | some s =>
    dsimp only
    by_cases hinv : s = 0 ∨ trimField body.name = ""
    · rw [if_pos hinv]; exact Or.inl rfl
    · rw [if_neg hinv]
      cases hT : placeTx db s (trimField body.name) body.rank with
      | error e => exact Or.inl rfl
      | ok r =>
        right
        refine ⟨s, trimField body.name, body.rank, r.1, r.2, hT, ?_⟩
        dsimp only
        split <;> rfl

theorem ranksPositive_placePlayer {db : Db} {s : Int} (sid : Option Int) (body : PlaceBody)
    (h : RanksPositive db s) : RanksPositive (placePlayer db sid body).2 s := by
  rcases placePlayer_db_cases db sid body with hc | ⟨s', n, rk, d', v, hT, hc⟩
  · rw [hc]; exact h
  · rw [hc]
    rcases placeTx_inv hT with hrows | ⟨R, pid, _, hrows, hR⟩
    · exact ranksPositive_of_rows hrows h
    · intro r hr hs
      rw [hrows] at hr
      rcases List.mem_append.mp hr with hr | hr
      · exact h r hr hs
      · rw [List.mem_singleton] at hr
        rw [hr] at hs ⊢
        rcases hR with hR | hR
        · have hs' : s' = s := hs
          have := maxRank_nonneg (hs' ▸ h : RanksPositive db s')
          show 1 ≤ R
          omega
        · exact hR

theorem writtenPositive_of_rows {base d : Db}
    (h : d.season_rankings = base.season_rankings) : WrittenPositive base d :=
  ⟨[], by rw [h, List.append_nil], fun r hr => by cases hr⟩

theorem writtenPositive_withRow {base d : Db} (s k : Int) (p : Nat) (hk : 1 ≤ k)
    (h : WrittenPositive base d) : WrittenPositive base (withRow d s k p) := by
  obtain ⟨new, hrows, hpos⟩ := h
  refine ⟨new ++ [⟨s, k, p⟩], ?_, ?_⟩
  · show d.season_rankings ++ _ = _
    rw [hrows, List.append_assoc]
  · intro r hr
    rcases List.mem_append.mp hr with hr | hr
    · exact hpos r hr
    · rw [List.mem_singleton] at hr
      rw [hr]
      exact hk

theorem writtenPositive_insert {base d d' : Db} {s k : Int} {p : Nat} (hk : 1 ≤ k)
    (hI : insertRanking d s k p = .ok d') (h : WrittenPositive base d) :
    WrittenPositive base d' := by
  rw [(insertRanking_inv hI).2]
  exact writtenPositive_withRow s k p hk h

theorem seedEntry_keeps (base : Db) (sid : Int) (e : SeedEntry) (d d' : Db)
    (hstep : seedEntry sid d e = .ok d') (h : WrittenPositive base d) :
    WrittenPositive base d' := by
  unfold seedEntry at hstep
  cases hr : e.rank with
  | none =>
    rw [hr] at hstep
    exact (Except.ok.inj hstep) ▸ h
  | some rnk =>
    rw [hr] at hstep
    dsimp only at hstep
    by_cases hc : trimField e.name = "" ∨ rnk < 1
    · rw [if_pos hc] at hstep
      exact (Except.ok.inj hstep) ▸ h
    · rw [if_neg hc] at hstep
      rw [getId_upsert_self] at hstep
      have hI : insertRanking (upsertPlayer d (trimField e.name)) sid rnk
          (idAfterUpsert d (trimField e.name)) = .ok d' := hstep
      apply writtenPositive_insert (by omega) hI
      obtain ⟨new, hrows, hpos⟩ := h
      exact ⟨new, by rw [(upsertPlayer_tables d _).1, hrows], hpos⟩

theorem collectSeed_keeps (base : Db) (p : Nat × String) (acc acc' : Db × List LadderSeed)
    (hstep : collectSeed acc p = .ok acc')
    (h : acc.1.season_rankings = base.season_rankings ∧ ∀ x ∈ acc.2, 1 ≤ x.rank) :
    acc'.1.season_rankings = base.season_rankings ∧ ∀ x ∈ acc'.2, 1 ≤ x.rank := by
  unfold collectSeed at hstep
  dsimp only at hstep
  by_cases hb : jsTrim p.2 = ""
  · rw [if_pos hb] at hstep
    exact (Except.ok.inj hstep) ▸ h
  · rw [if_neg hb, getId_upsert_self] at hstep
    have h1 : (upsertPlayer acc.1 (jsTrim p.2),
        acc.2 ++ [(⟨idAfterUpsert acc.1 (jsTrim p.2), (p.1 : Int) + 1⟩ : LadderSeed)]) = acc' :=
      Except.ok.inj hstep
    rw [← h1]
    refine ⟨by rw [(upsertPlayer_tables _ _).1]; exact h.1, ?_⟩
    intro x hx
    rcases List.mem_append.mp hx with hx | hx
    · exact h.2 x hx
    · rw [List.mem_singleton] at hx
      rw [hx]
      show 1 ≤ (p.1 : Int) + 1
      omega

/-- Every ranking row a season initialization writes has a rank of at least 1, and it
writes by appending. -/
theorem writtenPositive_initSeason (db : Db) (body : InitBody) :
    WrittenPositive db (initSeason db body).2 := by
  have hrefl : WrittenPositive db db := writtenPositive_of_rows rfl
  unfold initSeason
  cases body.year with
  | none => exact hrefl
  | some year =>
    dsimp only
    split
    · exact hrefl
    · split
      · exact hrefl
      · cases hT : initTx db year body.playersInOrder body.entries with
        | error e => exact hrefl
        | ok r =>
          show WrittenPositive db r.1
          unfold initTx at hT
          obtain ⟨r1, hS, hrest⟩ := bind_eq_ok hT
          have hrows1 : r1.1.season_rankings = db.season_rankings := by
            unfold insertSeason at hS
            split at hS
            · cases hS
            · rw [← Except.ok.inj hS]
          cases hes : body.entries with
          | some es =>
            rw [hes] at hrest
            obtain ⟨d2, hloop, hfin⟩ := bind_eq_ok hrest
            have h2 := foldlM_keeps (seedEntry r1.2) (WrittenPositive db) es
              (fun e _ b b' => seedEntry_keeps db r1.2 e b b') r1.1 d2 hloop
              (writtenPositive_of_rows hrows1)
            have : (d2, r1.2) = r := Except.ok.inj hfin
            rw [← this]
            exact h2
          | none =>
            rw [hes] at hrest
            obtain ⟨acc, hloop1, hrest2⟩ := bind_eq_ok hrest
            obtain ⟨d3, hloop2, hfin⟩ := bind_eq_ok hrest2
            have h1 := foldlM_keeps collectSeed
              (fun a : Db × List LadderSeed =>
                a.1.season_rankings = db.season_rankings ∧ ∀ x ∈ a.2, 1 ≤ x.rank)
              ((body.playersInOrder.getD []).enum)
              (fun p _ b b' => collectSeed_keeps db p b b') (r1.1, []) acc hloop1
              ⟨hrows1, fun x hx => by cases hx⟩
            have h2 := foldlM_keeps
              (fun d (row : LadderSeed) => insertRanking d r1.2 row.rank row.player_id)
              (WrittenPositive db) acc.2
              (fun row hrow b b' hI hb => writtenPositive_insert (h1.2 row hrow) hI hb)
              acc.1 d3 hloop2 (writtenPositive_of_rows h1.1)
            have : (d3, r1.2) = r := Except.ok.inj hfin
            rw [← this]
            exact h2

theorem ranksPositive_densifyRanks {db : Db} {s : Int} (s' : Int)
    (h : RanksPositive db s) : RanksPositive (densifyRanks db s') s := by
  by_cases hs : s' = s
  · rw [hs]
    intro r hr _
    rw [densifyRanks_rows db s h] at hr
    unfold mapSeasonRanks at hr
    obtain ⟨x, hx, hxr⟩ := List.mem_map.mp hr
    by_cases hc : x.season_id = s
    · rw [if_pos hc] at hxr
      rw [← hxr]
      show 1 ≤ denseRank (seasonRanks db s) x.rank
      unfold denseRank
      omega
    · rw [if_neg hc] at hxr
      rw [← hxr]
      exact absurd (by rw [hxr]; assumption) hc
  · intro r hr hrs
    unfold densifyRanks at hr
    rw [(foldl_densifyStep s' _ db).1] at hr
    unfold mapSeasonRanks at hr
    obtain ⟨x, hx, hxr⟩ := List.mem_map.mp hr
    by_cases hc : x.season_id = s'
    · rw [if_pos hc] at hxr
      rw [← hxr] at hrs
      exact absurd (hc.symm.trans hrs) hs
    · rw [if_neg hc] at hxr
      rw [← hxr] at hrs ⊢
      exact h x hx hrs

theorem ensureInLadder_inv {db d' : Db} {s : Int} {p : Nat}
    (h : ensureInLadder db s p = .ok d') : d' = ensured db s p := by
  rw [← ensure_eq_ensureInLadder] at h
  unfold ensure at h
  unfold ensured
  by_cases he : hasEntry db s p = true
  · rw [if_neg (not_not.mpr he)] at h
    rw [if_pos he]
    exact (Except.ok.inj h).symm
  · rw [if_pos he] at h
    rw [if_neg he]
    exact (insertRanking_inv h).2

/-- C12 (positive ranks). If every ranking row of a season `s` has a rank of at least 1,
the same holds of the database left by any `reportMatch`, any `placePlayer`, any
`ensureInLadder` that goes through (one that throws writes nothing) and any
`densifyRanks`, whatever season and arguments the operation is given; and a season
initialization only appends rows, each of rank at least 1. -/
theorem positive_rank_invariant (db : Db) (s : Int) (h : RanksPositive db s) :
    (∀ (body : MatchBody) (now : String), RanksPositive (reportMatch db body now).2 s)
      ∧ (∀ (sid : Option Int) (body : PlaceBody), RanksPositive (placePlayer db sid body).2 s)
      ∧ (∀ (s' : Int) (p : Nat) (d' : Db), ensureInLadder db s' p = .ok d' → RanksPositive d' s)
      ∧ (∀ s' : Int, RanksPositive (densifyRanks db s') s)
      ∧ (∀ body : InitBody, WrittenPositive db (initSeason db body).2
          ∧ RanksPositive (initSeason db body).2 s) := by
  refine ⟨?_, fun sid body => ranksPositive_placePlayer sid body h, ?_,
    fun s' => ranksPositive_densifyRanks s' h, ?_⟩
  · intro body now
    rcases reportMatch_db_cases db body now with hc | ⟨s', wn, ln, t, sc, nt, a, b, _, _, _, hc⟩
    · rw [hc]; exact h
    · rw [hc]
      exact ranksPositive_matchRule s' _ a b (ranksPositive_admitted s' wn ln t sc nt h)
  · intro s' p d' hE
    rw [ensureInLadder_inv hE]
    exact ranksPositive_ensured s' p h
  · intro body
    have hW := writtenPositive_initSeason db body
    refine ⟨hW, ?_⟩
    obtain ⟨new, hrows, hpos⟩ := hW
    intro r hr _
    rw [hrows] at hr
    rcases List.mem_append.mp hr with hr | hr
    · exact h r hr (by assumption)
    · exact hpos r hr

/-- Witness of C12: season 1 of `ladderDb` has ranks 2, 3, 7, 2; an upset, a placement at
the bottom and a densification leave it positive. -/
theorem positive_rank_invariant_witness :
    RanksPositive ladderDb 1
      ∧ RanksPositive (reportMatch ladderDb (reportOf 1 "Chie" "Aki") "t").2 1
      ∧ RanksPositive (placePlayer ladderDb (some 1) ⟨some "Gen", none⟩).2 1
      ∧ RanksPositive (densifyRanks ladderDb 1) 1 :=
  ⟨by decide,
    (positive_rank_invariant ladderDb 1 (by decide)).1 (reportOf 1 "Chie" "Aki") "t",
    (positive_rank_invariant ladderDb 1 (by decide)).2.1 (some 1) ⟨some "Gen", none⟩,
    (positive_rank_invariant ladderDb 1 (by decide)).2.2.2.1 1⟩

theorem mem_seasonPlayers (d : Db) (s : Int) (p : Nat) :
    p ∈ (seasonRows d s).map (·.player_id) ↔ hasEntry d s p = true := by
  unfold seasonRows hasEntry
  rw [List.any_eq_true, List.mem_map]
  constructor
  · rintro ⟨r, hr, hrp⟩
    have h1 := List.mem_filter.mp hr
    exact ⟨r, h1.1, decide_eq_true ⟨of_decide_eq_true h1.2, hrp⟩⟩
  · rintro ⟨r, hr, hrp⟩
    have h1 : r.season_id = s ∧ r.player_id = p := of_decide_eq_true hrp
    exact ⟨r, List.mem_filter.mpr ⟨hr, decide_eq_true h1.1⟩, h1.2⟩

theorem seasonRows_withRow (d : Db) (s s' k : Int) (p : Nat) :
    seasonRows (withRow d s k p) s'
      = if s = s' then seasonRows d s' ++ [⟨s, k, p⟩] else seasonRows d s' := by
  unfold seasonRows withRow
  dsimp only
  rw [List.filter_append, List.filter_cons]
  by_cases h : s = s'
  · rw [if_pos (decide_eq_true h), if_pos h]; rfl
  · rw [if_neg (by rw [decide_eq_false h]; exact Bool.false_ne_true), if_neg h]
    exact List.append_nil _

theorem uniqueEntries_of_rows {d d' : Db} {s : Int}
    (hrows : d'.season_rankings = d.season_rankings) (h : UniqueEntries d s) :
    UniqueEntries d' s := by
  unfold UniqueEntries seasonRows at h ⊢
  rw [hrows]
  exact h

theorem uniqueEntries_withRow {d : Db} {s' : Int} (s k : Int) (p : Nat)
    (he : hasEntry d s p = false) (h : UniqueEntries d s') :
    UniqueEntries (withRow d s k p) s' := by
  unfold UniqueEntries at h ⊢
  rw [seasonRows_withRow]
  by_cases hs : s = s'
  · rw [if_pos hs, List.map_append, List.nodup_append]
    refine ⟨h, List.nodup_singleton _, ?_⟩
    intro a ha hb
    rw [List.map_cons, List.map_nil, List.mem_singleton] at hb
    have hb' : a = p := hb
    rw [hb', mem_seasonPlayers, ← hs, he] at ha
    cases ha
  · rw [if_neg hs]
    exact h

theorem uniqueEntries_ensured {d : Db} {s' : Int} (s : Int) (p : Nat)
    (h : UniqueEntries d s') : UniqueEntries (ensured d s p) s' := by
  unfold ensured
  by_cases he : hasEntry d s p = true
  · rw [if_pos he]; exact h
  · rw [if_neg he]
    exact uniqueEntries_withRow s _ p (Bool.eq_false_iff.mpr he) h

/-- A row update that keeps `season_id` and `player_id` keeps the players of each season. -/
theorem seasonPlayers_map_keys (l : List RankingRow) (f : RankingRow → RankingRow) (s : Int)
    (hf : ∀ r, (f r).season_id = r.season_id ∧ (f r).player_id = r.player_id) :
    ((l.map f).filter (fun r => r.season_id = s)).map (·.player_id)
      = (l.filter (fun r => r.season_id = s)).map (·.player_id) := by
  induction l with
  | nil => rfl
  | cons a t ih =>
    by_cases h : a.season_id = s
    · have h' : (f a).season_id = s := (hf a).1.trans h
      rw [List.map_cons, List.filter_cons, List.filter_cons, if_pos (decide_eq_true h),
        if_pos (decide_eq_true h'), List.map_cons, List.map_cons, ih, (hf a).2]
    · have h' : ¬ (f a).season_id = s := fun hh => h ((hf a).1.symm.trans hh)
      rw [List.map_cons, List.filter_cons, List.filter_cons,
        if_neg (by rw [decide_eq_false h']; exact Bool.false_ne_true),
        if_neg (by rw [decide_eq_false h]; exact Bool.false_ne_true), ih]

theorem uniqueEntries_matchRule {d : Db} {s' : Int} (s : Int) (w : Nat) (a b : Int)
    (h : UniqueEntries d s') : UniqueEntries (matchRule d s w a b) s' := by
  unfold matchRule
  split
  · exact h
  · split
    · unfold UniqueEntries seasonRows setRankOfPlayer at *
      dsimp only
      rw [seasonPlayers_map_keys _ _ s' (by intro r; split <;> exact ⟨rfl, rfl⟩)]
      exact h
    · unfold UniqueEntries seasonRows shiftTied at *
      dsimp only
      rw [seasonPlayers_map_keys _ _ s' (by intro r; split <;> exact ⟨rfl, rfl⟩)]
      exact h

theorem uniqueEntries_admitted {db : Db} {s' : Int} (s : Int) (wn ln t : String)
    (sc nt : Option String) (h : UniqueEntries db s') :
    UniqueEntries (admitted db s wn ln t sc nt) s' := by
  unfold admitted
  apply uniqueEntries_ensured
  apply uniqueEntries_ensured
  exact uniqueEntries_of_rows (logged_tables db s wn ln t sc nt).1 h

theorem uniqueEntries_placePlayer {db : Db} {s : Int} (sid : Option Int) (body : PlaceBody)
    (h : UniqueEntries db s) : UniqueEntries (placePlayer db sid body).2 s := by
  rcases placePlayer_db_cases db sid body with hc | ⟨s', n, rk, d', v, hT, hc⟩
  · rw [hc]; exact h
  · rw [hc]
    rcases placeTx_inv hT with hrows | ⟨R, pid, he, hrows, _⟩
    · exact uniqueEntries_of_rows hrows h
    · have hrows' : d'.season_rankings = (withRow db s' R pid).season_rankings := hrows
      exact uniqueEntries_of_rows hrows' (uniqueEntries_withRow s' R pid he h)

theorem matchTx_not_unique (db : Db) (s : Int) (wn ln t : String) (sc nt : Option String) :
    matchTx db s wn ln t sc nt ≠ .error .uniqueViolation := by
  by_cases hseason : ∃ x ∈ db.seasons, x.id = s
  · obtain ⟨a, b, _, _, _, hT⟩ := matchTx_eq db s wn ln t sc nt hseason
    rw [hT]
    exact fun h => Except.noConfusion h
  · rw [matchTx_no_season db s wn ln t sc nt hseason]
    exact fun h => TxError.noConfusion (Except.error.inj h)

theorem ensureInLadder_not_unique (db : Db) (s : Int) (p : Nat) :
    ensureInLadder db s p ≠ .error .uniqueViolation := by
  rw [← ensure_eq_ensureInLadder]
  unfold ensure
  by_cases he : hasEntry db s p = true
  · rw [if_neg (not_not.mpr he)]
    exact fun h => Except.noConfusion h
  · rw [if_pos he]
    exact insertRanking_not_unique (Bool.eq_false_iff.mpr he)

theorem placeTx_not_unique (db : Db) (s : Int) (n : String) (rk : Option Int) :
    placeTx db s n rk ≠ .error .uniqueViolation := by
  unfold placeTx
  dsimp only
  rw [getId_upsert_self db n]
  simp only [bind, Except.bind]
  cases hr : rankOf (upsertPlayer db n) s (idAfterUpsert db n) with
  | some r => exact fun h => Except.noConfusion h
  | none =>
    dsimp only
    have he := (rankOf_eq_none_iff _ _ _).mp hr
    generalize (match rk with
      | some k => if k ≥ 1 then k else maxRank (upsertPlayer db n) s + 1
      | none => maxRank (upsertPlayer db n) s + 1) = R
    have hI := insertRanking_not_unique (k := R) he
    cases hres : insertRanking (upsertPlayer db n) s R (idAfterUpsert db n) with
    | error e =>
      dsimp only
      intro h
      have he' : e = .uniqueViolation := Except.error.inj h
      apply hI
      rw [hres, he']
    | ok d2 =>
      dsimp only
      cases hf : orThrow (rankOf d2 s (idAfterUpsert db n)) with
      | error e =>
        intro h
        have he' : e = .uniqueViolation := Except.error.inj h
        unfold orThrow at hf
        split at hf
        · cases hf
        · rw [← Except.error.inj hf] at he'
          cases he'
      | ok fr => exact fun h => Except.noConfusion h

/-- C13 (one entry per player). If a season `s` holds at most one ranking row per player,
so does the database left by any `reportMatch`, any `placePlayer` and any
`ensureInLadder` that goes through, whatever season and arguments the operation is
given (a report or placement that fails leaves the database as it was). Moreover the
transactions of `reportMatch` and `placePlayer` and `ensureInLadder` never throw the
`UNIQUE(season_id, player_id)` violation, on any database and any arguments, the winner
and loser names being equal included: each insert is issued only after the check found
no entry. -/
theorem entry_uniqueness_invariant (db : Db) (s : Int) (h : UniqueEntries db s) :
    (∀ (body : MatchBody) (now : String), UniqueEntries (reportMatch db body now).2 s)
      ∧ (∀ (sid : Option Int) (body : PlaceBody), UniqueEntries (placePlayer db sid body).2 s)
      ∧ (∀ (s' : Int) (p : Nat) (d' : Db), ensureInLadder db s' p = .ok d' → UniqueEntries d' s)
      ∧ (∀ (d : Db) (s' : Int) (wn ln t : String) (sc nt : Option String),
          matchTx d s' wn ln t sc nt ≠ .error .uniqueViolation)
      ∧ (∀ (d : Db) (s' : Int) (n : String) (rk : Option Int),
          placeTx d s' n rk ≠ .error .uniqueViolation)
      ∧ (∀ (d : Db) (s' : Int) (p : Nat), ensureInLadder d s' p ≠ .error .uniqueViolation) := by
  refine ⟨?_, fun sid body => uniqueEntries_placePlayer sid body h, ?_, matchTx_not_unique,
    placeTx_not_unique, ensureInLadder_not_unique⟩
  · intro body now
    rcases reportMatch_db_cases db body now with hc | ⟨s', wn, ln, t, sc, nt, a, b, _, _, _, hc⟩
    · rw [hc]; exact h
    · rw [hc]
      exact uniqueEntries_matchRule s' _ a b (uniqueEntries_admitted s' wn ln t sc nt h)
  · intro s' p d' hE
    rw [ensureInLadder_inv hE]
    exact uniqueEntries_ensured s' p h

/-- Witness of C13: in season 2 of `ladderDb` the new name Zed is reported as winner and
loser of one match; the report is accepted and Zed holds one entry. -/
theorem entry_uniqueness_invariant_witness :
    UniqueEntries ladderDb 2
      ∧ UniqueEntries (reportMatch ladderDb (reportOf 2 "Zed" "Zed") "t").2 2
      ∧ (reportMatch ladderDb (reportOf 2 "Zed" "Zed") "t").1 = .json ()
      ∧ entryCount (reportMatch ladderDb (reportOf 2 "Zed" "Zed") "t").2 2 5 = 1 :=
  ⟨by decide,
    (entry_uniqueness_invariant ladderDb 2 (by decide)).1 (reportOf 2 "Zed" "Zed") "t",
    by decide, by decide⟩

/-! ## Ranks after the ensure steps -/

theorem rankOf_of_rows {d d' : Db} (hrows : d'.season_rankings = d.season_rankings)
    (s : Int) (p : Nat) : rankOf d' s p = rankOf d s p := by
  unfold rankOf
  rw [hrows]

theorem maxRank_of_rows {d d' : Db} (hrows : d'.season_rankings = d.season_rankings)
    (s : Int) : maxRank d' s = maxRank d s := by
  unfold maxRank seasonRows
  rw [hrows]

theorem rankOf_ensured_other (d : Db) (s s' : Int) {p q : Nat} (h : p ≠ q) :
    rankOf (ensured d s q) s' p = rankOf d s' p := by
  unfold ensured
  split
  · rfl
  · rw [rankOf_withRow, if_neg (fun hh => h hh.2.symm)]
    cases rankOf d s' p <;> rfl

theorem rankOf_ensured_self (d : Db) (s : Int) (q : Nat) :
    rankOf (ensured d s q) s q = some ((rankOf d s q).getD (maxRank d s + 1)) := by
  unfold ensured
  by_cases he : hasEntry d s q = true
  · rw [if_pos he]
    obtain ⟨a, ha⟩ := rankOf_some_of_hasEntry he
    rw [ha]; rfl
  · rw [if_neg he, rankOf_withRow, if_pos ⟨rfl, rfl⟩,
      (rankOf_eq_none_iff d s q).mpr (Bool.eq_false_iff.mpr he)]
    rfl

/-- Under the foreign key of `season_rankings` on players, the rank held by the id a name
resolves to is the rank held by the name. -/
theorem rankOf_idAfterUpsert {db : Db} (s : Int) (n : String)
    (hfk : ∀ r ∈ db.season_rankings, ∃ p ∈ db.players, p.id = r.player_id) :
    rankOf db s (idAfterUpsert db n) = rankOfName db s n := by
  unfold rankOfName idAfterUpsert
  cases hg : getId db n with
  | some i => rfl
  | none =>
    show rankOf db s (nextNat (db.players.map (·.id))) = none
    rw [rankOf_eq_none_iff]
    exact hasEntry_fresh s hfk

/-- The rank the winner holds after the ensure steps, when the loser is another player. -/
theorem rankOf_admitted_winner {db : Db} (s : Int) (wn ln t : String) (sc nt : Option String)
    (hfk : ∀ r ∈ db.season_rankings, ∃ p ∈ db.players, p.id = r.player_id)
    (hne : winnerId db wn ≠ loserId db wn ln) :
    rankOf (admitted db s wn ln t sc nt) s (winnerId db wn)
      = some ((rankOfName db s wn).getD (maxRank db s + 1)) := by
  have hT := logged_tables db s wn ln t sc nt
  unfold admitted
  rw [rankOf_ensured_other _ s s hne, rankOf_ensured_self, rankOf_of_rows hT.1,
    maxRank_of_rows hT.1]
  unfold winnerId
  rw [rankOf_idAfterUpsert s wn hfk]

/-! ## A report whose winner and loser are one name -/

end BaronyRanking
